import Mathlib

/-!
# jstp: the network-message framer `ParseNetworkMessages`

A shallow embedding of `src/message_parser.cc` and the properties of the
framer that the specification states.

The framer calls two functions of `parser.h` whose bodies are not part of the
sources at hand, `SkipToNextToken` and `ParseObject`.  They are parameters of
the embedding: a call `f(begin, end)` is rendered as `f` applied to the bytes
of the span `[begin, end)`.  Where a statement needs it, the contract of
`SkipToNextToken` (the number of bytes it skips is at most the length of the
span) is a hypothesis.

The buffer `str` of `length` bytes is a list of bytes.  The cursor
`parsed_length` is an `int32_t`, the index `i` and the sizes are `size_t`, and
`out_index` is a `uint32_t`; the embedding keeps these widths.
-/

namespace MessageParser

/-! ## Machine integers -/

/-- The modulus of `size_t` arithmetic (64-bit target). -/
def sizeModulus : Nat := 2 ^ 64

/-- The largest `int32_t`. -/
def int32Max : Nat := 2 ^ 31 - 1

/-- Conversion of a `size_t` value to `int32_t` (line 73, `parsed_length = i + 1`):
the value modulo `2^32`, read as a two's-complement number. -/
def toInt32 (n : Nat) : Int :=
  if n % 2 ^ 32 < 2 ^ 31 then ((n % 2 ^ 32 : Nat) : Int)
  else ((n % 2 ^ 32 : Nat) : Int) - 2 ^ 32

/-! ## Buffers, spans and the output array -/

/-- The bytes of `str` in the pointer range `[str + b, str + e)`; empty when
`e ≤ b`. -/
def span (str : List UInt8) (b e : Nat) : List UInt8 :=
  (str.drop b).take (e - b)

/-- The JavaScript array `out`: a list of slots, `none` being a hole. -/
abbrev JsArray (V : Type) := List (Option V)

/-- Storing `value` in slot `index` of a JavaScript array: the slot is
overwritten when it exists; otherwise the array is extended up to `index`
(with holes, if `index` lies beyond the end). -/
def arrayPut {V : Type} (out : JsArray V) (index : Nat) (value : V) : JsArray V :=
  if index < out.length then out.set index (some value)
  else out ++ List.replicate (index - out.length) none ++ [some value]

/-- The call `out->Set(context, index, value)` on an ordinary array.  The
result is `none` when `Set` reports failure, which an ordinary array never
does. -/
def arraySet {V : Type} (out : JsArray V) (index : Nat) (value : V) : Option (JsArray V) :=
  some (arrayPut out index value)

/-- How a call of `ParseNetworkMessages` ends. -/
inductive Outcome (E : Type) where
  /-- Line 77: `Integer::New(isolate, parsed_length)`. -/
  | consumed (parsed_length : Int)
  /-- Lines 47 and 64: `THROW_EXCEPTION(SyntaxError, msg)` and an empty handle. -/
  | syntaxError (msg : String)
  /-- Line 56: `ParseObject` returned an empty handle; its error is pending. -/
  | parseError (e : E)
  /-- Line 70: `out->Set` reported failure. -/
  | setFailed
  /-- The C++ code has no defined behaviour (a read outside the buffer, or a
  message pointer before its start). -/
  | undefined
  deriving DecidableEq, Repr

/-- The local variables of `ParseNetworkMessages` that live across iterations,
together with the output array. -/
structure FramerState (V : Type) where
  out : JsArray V
  out_index : Nat
  parsed_length : Int
  deriving DecidableEq, Repr

/-! ## The framer -/

section Framer

variable {V E : Type}

/-- Lines 41-73: the body of `if (str[i] == '\0')`, for the NUL at index `i`.
It ends the call with an outcome, or yields the state for the next iteration.
`size_t` sums are taken modulo `2^64`, `out_index++` modulo `2^32`, and the
assignment `parsed_length = i + 1` converts to `int32_t`.  A negative cursor
makes `str + parsed_length` point before the buffer, and `current_message[skipped_size]`
at or beyond `length` reads outside it: both are the outcome `undefined`. -/
def processMessage (SkipToNextToken : List UInt8 → Nat)
    (ParseObject : List UInt8 → Except E (V × Nat))
    (str : List UInt8) (i : Nat) (st : FramerState V) : Except (Outcome E) (FramerState V) :=
  -- `current_message = str + parsed_length`
  if st.parsed_length < 0 then .error .undefined else
  let current_message := st.parsed_length.toNat
  let skipped_size := SkipToNextToken (span str current_message i)
  match str[current_message + skipped_size]? with
  | none => .error .undefined
  | some b =>
    if b ≠ 123 then .error (.syntaxError "Invalid message type") else
    match ParseObject (span str (current_message + skipped_size) i) with
    | .error e => .error (.parseError e)
    | .ok (message_object, size) =>
      let parsed_message_size := (size + skipped_size) % sizeModulus
      let parsed_message_size :=
        (parsed_message_size +
          SkipToNextToken (span str (current_message + parsed_message_size) i)) % sizeModulus
      if parsed_message_size ≠ (((i : Int) - st.parsed_length) % (sizeModulus : Int)).toNat then
        .error (.syntaxError "Invalid format")
      else
        match arraySet st.out st.out_index message_object with
        | none => .error .setFailed
        | some out =>
          .ok { out := out
                out_index := (st.out_index + 1) % 2 ^ 32
                parsed_length := toInt32 (i + 1) }

/-- Lines 39-77: the loop `for (size_t i = 0; i < length; i++)`, entered at
index `i` with the bytes `str[i..]` still to visit, followed by the final
`return`.  The state paired with the outcome is the state at that point. -/
def frameLoop (SkipToNextToken : List UInt8 → Nat)
    (ParseObject : List UInt8 → Except E (V × Nat))
    (str : List UInt8) : List UInt8 → Nat → FramerState V → FramerState V × Outcome E
  | [], _, st => (st, .consumed st.parsed_length)
  | c :: rest, i, st =>
    if c = 0 then
      match processMessage SkipToNextToken ParseObject str i st with
      | .error o => (st, o)
      | .ok st' => frameLoop SkipToNextToken ParseObject str rest (i + 1) st'
    else frameLoop SkipToNextToken ParseObject str rest (i + 1) st

/-- The function `ParseNetworkMessages(isolate, str, length, out)`: the buffer
is the list `str` (its length is `length`); the result is the array `out` after
the call and the way the call ended. -/
def ParseNetworkMessages (SkipToNextToken : List UInt8 → Nat)
    (ParseObject : List UInt8 → Except E (V × Nat))
    (str : List UInt8) (out : JsArray V) : JsArray V × Outcome E :=
  let r := frameLoop SkipToNextToken ParseObject str str 0
    { out := out, out_index := 0, parsed_length := 0 }
  (r.1.out, r.2)

/-- The verdict of the loop body (lines 43-66) on one message region, stated
on the bytes of the region alone: the region is followed by its NUL, and the
leading skip stays inside the region. -/
def regionVerdict (SkipToNextToken : List UInt8 → Nat)
    (ParseObject : List UInt8 → Except E (V × Nat))
    (region : List UInt8) : Except (Outcome E) V :=
  let skipped_size := SkipToNextToken region
  if (region ++ [0])[skipped_size]? ≠ some 123 then
    .error (.syntaxError "Invalid message type")
  else
    match ParseObject (region.drop skipped_size) with
    | .error e => .error (.parseError e)
    | .ok (message_object, size) =>
      let parsed_message_size := (size + skipped_size) % sizeModulus
      let parsed_message_size :=
        (parsed_message_size + SkipToNextToken (region.drop parsed_message_size)) % sizeModulus
      if parsed_message_size ≠ region.length % sizeModulus then
        .error (.syntaxError "Invalid format")
      else .ok message_object

/-- The part of the loop body that does not touch the array (lines 41-66), for
the NUL at index `i` and the cursor `parsed_length`: the outcome that ends the
call, or the value to store. -/
def messageResult (SkipToNextToken : List UInt8 → Nat)
    (ParseObject : List UInt8 → Except E (V × Nat))
    (str : List UInt8) (i : Nat) (parsed_length : Int) : Except (Outcome E) V :=
  if parsed_length < 0 then .error .undefined else
  let current_message := parsed_length.toNat
  let skipped_size := SkipToNextToken (span str current_message i)
  match str[current_message + skipped_size]? with
  | none => .error .undefined
  | some b =>
    if b ≠ 123 then .error (.syntaxError "Invalid message type") else
    match ParseObject (span str (current_message + skipped_size) i) with
    | .error e => .error (.parseError e)
    | .ok (message_object, size) =>
      let parsed_message_size := (size + skipped_size) % sizeModulus
      let parsed_message_size :=
        (parsed_message_size +
          SkipToNextToken (span str (current_message + parsed_message_size) i)) % sizeModulus
      if parsed_message_size ≠ (((i : Int) - parsed_length) % (sizeModulus : Int)).toNat then
        .error (.syntaxError "Invalid format")
      else .ok message_object

/-- The values that the loop passes to `out->Set` (line 68), in the order of the
calls: the loop of lines 39-77 entered at index `i` with the bytes `str[i..]`
still to visit and the cursor `parsed_length`, with the array left out.  The
loop ends at the first message that is not accepted. -/
def storedValues (SkipToNextToken : List UInt8 → Nat)
    (ParseObject : List UInt8 → Except E (V × Nat))
    (str : List UInt8) : List UInt8 → Nat → Int → List V
  | [], _, _ => []
  | c :: rest, i, parsed_length =>
    if c = 0 then
      match messageResult SkipToNextToken ParseObject str i parsed_length with
      | .error _ => []
      | .ok message_object =>
        message_object ::
          storedValues SkipToNextToken ParseObject str rest (i + 1) (toInt32 (i + 1))
    else storedValues SkipToNextToken ParseObject str rest (i + 1) parsed_length

/-- The result of a call on the second part of a buffer, seen from the whole
buffer: a consumed length counts the `n` bytes of the first part too. -/
def Outcome.shift (n : Nat) : Outcome E → Outcome E
  | .consumed c => .consumed ((n : Int) + c)
  | o => o

/-! ### The reference definition of the framer

The definitions `splitAtNul`, `terminatedPieces`, `referenceCheck`,
`referenceProcess` and `referenceParse` follow the words of the specification
(section 4.1), not the code: they are what the loop is compared with. -/

/-- The pieces of the buffer between its NUL bytes: the buffer split at every
NUL.  The last piece is the one that no NUL ends. -/
def splitAtNul : List UInt8 → List (List UInt8)
  | [] => [[]]
  | c :: l =>
    if c = 0 then [] :: splitAtNul l
    else
      match splitAtNul l with
      | [] => [[c]]
      | p :: ps => (c :: p) :: ps

/-- The pieces that a NUL ends: the final, unterminated piece is discarded. -/
def terminatedPieces (str : List UInt8) : List (List UInt8) :=
  (splitAtNul str).dropLast

/-- The per-region check of the specification: skip the leading insignificant
bytes, the next byte (the NUL delimiter when the piece is used up) must be an
opening brace, the value parser must succeed there, and the skip after the
parsed value must land at the end of the piece. -/
def referenceCheck (SkipToNextToken : List UInt8 → Nat)
    (ParseObject : List UInt8 → Except E (V × Nat))
    (piece : List UInt8) : Except (Outcome E) V :=
  let leading := SkipToNextToken piece
  if (piece ++ [0])[leading]? ≠ some 123 then
    .error (.syntaxError "Invalid message type")
  else
    match ParseObject (piece.drop leading) with
    | .error e => .error (.parseError e)
    | .ok (value, size) =>
      if leading + size + SkipToNextToken (piece.drop (leading + size)) ≠ piece.length then
        .error (.syntaxError "Invalid format")
      else .ok value

/-- The pieces processed from left to right, stopping at the first rejected
piece: the values of the accepted pieces, with the error of the first rejected
piece or, when none is rejected, the sum of `piece length + 1` over the
pieces. -/
def referenceProcess (SkipToNextToken : List UInt8 → Nat)
    (ParseObject : List UInt8 → Except E (V × Nat)) :
    List (List UInt8) → List V × Outcome E
  | [] => ([], .consumed 0)
  | p :: ps =>
    match referenceCheck SkipToNextToken ParseObject p with
    | .error o => ([], o)
    | .ok v =>
      let r := referenceProcess SkipToNextToken ParseObject ps
      (v :: r.1, r.2.shift (p.length + 1))

/-- The reference definition of the framer: the terminated pieces of the
buffer, processed from left to right. -/
def referenceParse (SkipToNextToken : List UInt8 → Nat)
    (ParseObject : List UInt8 → Except E (V × Nat))
    (str : List UInt8) : List V × Outcome E :=
  referenceProcess SkipToNextToken ParseObject (terminatedPieces str)

/-- The bounds on the accesses of the loop body (lines 41-61) for the NUL at
index `i`: the cursor is a position of the buffer not after `i` (the pair
passed to the first `SkipToNextToken`), the byte tested against the brace lies
inside the buffer, and, when the body gets that far, the starts of the spans
passed to `ParseObject` and to the second `SkipToNextToken` are not after `i`.
The end of every span is `i`, the position of the NUL. -/
def messageInBounds (SkipToNextToken : List UInt8 → Nat)
    (ParseObject : List UInt8 → Except E (V × Nat))
    (str : List UInt8) (i : Nat) (st : FramerState V) : Bool :=
  decide (0 ≤ st.parsed_length) && decide (st.parsed_length ≤ (i : Int)) &&
  (let current_message := st.parsed_length.toNat
   let skipped_size := SkipToNextToken (span str current_message i)
   decide (current_message + skipped_size < str.length) &&
   (if str[current_message + skipped_size]? = some 123 then
      decide (current_message + skipped_size ≤ i) &&
      (match ParseObject (span str (current_message + skipped_size) i) with
       | .error _ => true
       | .ok (_, size) =>
         decide (current_message + (size + skipped_size) % sizeModulus ≤ i))
    else true))

/-- The bounds on the accesses of the loop entered at index `i` with the bytes
`str[i..]` still to visit: every index `i` at which `str[i]` is read lies inside
the buffer, and the accesses of every loop body that runs are in bounds. -/
def loopInBounds (SkipToNextToken : List UInt8 → Nat)
    (ParseObject : List UInt8 → Except E (V × Nat))
    (str : List UInt8) : List UInt8 → Nat → FramerState V → Bool
  | [], _, _ => true
  | c :: rest, i, st =>
    decide (i < str.length) &&
    (if c = 0 then
      messageInBounds SkipToNextToken ParseObject str i st &&
      (match processMessage SkipToNextToken ParseObject str i st with
       | .error _ => true
       | .ok st' => loopInBounds SkipToNextToken ParseObject str rest (i + 1) st')
    else loopInBounds SkipToNextToken ParseObject str rest (i + 1) st)

/-- The index after the last NUL among the bytes `l`, which sit at the indices
from `i` on; `b` when `l` has no NUL. -/
def boundaryFrom : List UInt8 → Nat → Nat → Nat
  | [], _, b => b
  | c :: l, i, b => boundaryFrom l (i + 1) (if c = 0 then i + 1 else b)

/-- The index after the last NUL of the buffer; 0 when it has no NUL. -/
def lastBoundary (str : List UInt8) : Nat := boundaryFrom str 0 0

/-- A message region of the form `ws1 ++ obj ++ ws2`, with the value that
`ParseObject` gives for `obj`. -/
structure Message (V : Type) where
  ws1 : List UInt8
  obj : List UInt8
  ws2 : List UInt8
  value : V

/-- The bytes of the region of a message. -/
def Message.region (m : Message V) : List UInt8 := m.ws1 ++ m.obj ++ m.ws2

/-- The buffer made of the regions of the messages, each followed by NUL. -/
def messagesBuffer : List (Message V) → List UInt8
  | [] => []
  | m :: ms => m.region ++ 0 :: messagesBuffer ms

/-- A well-formed message: the region is NUL-free, `SkipToNextToken` skips
exactly `ws1` at its start, `obj` starts with an opening brace and `ParseObject`
succeeds on it reporting the size of `obj`, and `SkipToNextToken` skips exactly
`ws2` after `obj`. -/
def Message.WellFormed (SkipToNextToken : List UInt8 → Nat)
    (ParseObject : List UInt8 → Except E (V × Nat)) (m : Message V) : Prop :=
  (0 : UInt8) ∉ m.region ∧
  SkipToNextToken m.region = m.ws1.length ∧
  m.obj.head? = some 123 ∧
  ParseObject (m.obj ++ m.ws2) = .ok (m.value, m.obj.length) ∧
  SkipToNextToken m.ws2 = m.ws2.length

end Framer

/-! ## The token skipper and the value parser

`SkipToNextToken` and `ParseObject` are declared in `parser.h`; their bodies
are not among the sources.  The definitions of this section follow sections 4.2
and 4.3 of the specification.  They serve as concrete instances of the two
parameters of the framer. -/

/-- Modelled from the spec: the parsed value of section 3 (the value type of
the absent `parser.cc`).  A number keeps its lexeme, a string its code units,
an object its members in iteration order. -/
inductive JsValue where
  | null
  | boolean (b : Bool)
  | number (lexeme : List UInt8)
  | string (units : List Nat)
  | array (items : List JsValue)
  | object (members : List (List Nat × JsValue))
  deriving Repr

/-- Modelled from the spec: the error kinds of section 7 that the absent value
parser raises; `tooDeep` is the rejection of nesting beyond the bound. -/
inductive SyntaxErrorKind where
  | unterminatedString
  | invalidEscape
  | invalidNumber
  | unexpectedToken
  | unexpectedEnd
  | tooDeep
  deriving DecidableEq, Repr

/-- Modelled from the spec: the error of the absent value parser, a kind and
the offset of the fault from the start of the parsed span. -/
abbrev ParseFailure := SyntaxErrorKind × Nat

/-- Modelled from the spec: the insignificant bytes of section 4.2 (space,
tab, CR, LF), for the absent `SkipToNextToken`. -/
def isInsignificant (c : UInt8) : Bool := c = 32 || c = 9 || c = 13 || c = 10

/-- Modelled from the spec: the absent `SkipToNextToken(begin, end)` of
`parser.cc`, section 4.2: the number of insignificant bytes at the start of
the span; 0 when the span is empty or starts with a significant byte. -/
def specSkipToNextToken : List UInt8 → Nat
  | [] => 0
  | c :: rest => if isInsignificant c then specSkipToNextToken rest + 1 else 0

/-- The span without its leading insignificant bytes. -/
def skipped (s : List UInt8) : List UInt8 := s.drop (specSkipToNextToken s)

/-- The value of a hexadecimal digit. -/
def hexValue (c : UInt8) : Option Nat :=
  if 48 ≤ c ∧ c ≤ 57 then some (c.toNat - 48)
  else if 97 ≤ c ∧ c ≤ 102 then some (c.toNat - 87)
  else if 65 ≤ c ∧ c ≤ 70 then some (c.toNat - 55)
  else none

/-- Modelled from the spec: the string production of section 4.3 of the absent
value parser, after the opening quote `q`: the code units up to the closing
quote, with the escapes `\\ \" \' \n \t \r \uXXXX`, and the bytes after the closing
quote.  An error carries the number of bytes left at the fault. -/
def parseStringBody (q : UInt8) : List UInt8 → Except ParseFailure (List Nat × List UInt8)
  | [] => .error (.unterminatedString, 0)
  | c :: rest =>
    if c = q then .ok ([], rest)
    else if c = 92 then
      match rest with
      | [] => .error (.unterminatedString, 0)
      | e :: rest' =>
        if e = 117 then
          match rest' with
          | a :: b :: c' :: d :: rest'' =>
            match hexValue a, hexValue b, hexValue c', hexValue d with
            | some x, some y, some z, some w =>
              (parseStringBody q rest'').map
                fun r => ((((x * 16 + y) * 16 + z) * 16 + w) :: r.1, r.2)
            | _, _, _, _ => .error (.invalidEscape, rest'.length)
          | _ => .error (.invalidEscape, rest'.length)
        else
          let u : Option Nat :=
            if e = 92 then some 92 else if e = 34 then some 34 else if e = 39 then some 39
            else if e = 110 then some 10 else if e = 116 then some 9
            else if e = 114 then some 13 else none
          match u with
          | some x => (parseStringBody q rest').map fun r => (x :: r.1, r.2)
          | none => .error (.invalidEscape, rest'.length + 1)
    else (parseStringBody q rest).map fun r => (c.toNat :: r.1, r.2)

/-- A decimal digit. -/
def isDigit (c : UInt8) : Bool := 48 ≤ c && c ≤ 57

/-- The first byte of a bare identifier: a letter or an underscore. -/
def isIdentStart (c : UInt8) : Bool := (97 ≤ c && c ≤ 122) || (65 ≤ c && c ≤ 90) || c = 95

/-- A byte of a bare identifier: a letter, a digit or an underscore. -/
def isIdentChar (c : UInt8) : Bool := isIdentStart c || isDigit c

/-- The number of leading bytes that satisfy `p`. -/
def runLength (p : UInt8 → Bool) : List UInt8 → Nat
  | [] => 0
  | c :: rest => if p c then runLength p rest + 1 else 0

/-- Modelled from the spec: the number production of section 4.3 of the absent
value parser (optional sign, digits, optional fraction, optional exponent):
the length of the numeral at the start of `s`, `none` when it is malformed. -/
def numberLength (s : List UInt8) : Option Nat :=
  let sign := if s.head? = some 45 then 1 else 0
  let intDigits := runLength isDigit (s.drop sign)
  if intDigits = 0 then none else
  let p := sign + intDigits
  let frac : Option Nat :=
    if (s.drop p).head? = some 46 then
      let n := runLength isDigit (s.drop (p + 1))
      if n = 0 then none else some (n + 1)
    else some 0
  match frac with
  | none => none
  | some f =>
    let p := p + f
    let c := (s.drop p).head?
    if c = some 101 ∨ c = some 69 then
      let c2 := (s.drop (p + 1)).head?
      let esign := if c2 = some 43 ∨ c2 = some 45 then 1 else 0
      let n := runLength isDigit (s.drop (p + 1 + esign))
      if n = 0 then none else some (p + 1 + esign + n)
    else some p

/-- Modelled from the spec: the duplicate-key rule of section 4.3 of the absent
value parser: the last value wins, the first position is kept. -/
def setMember (k : List Nat) (v : JsValue) :
    List (List Nat × JsValue) → List (List Nat × JsValue)
  | [] => [(k, v)]
  | (k', v') :: ms => if k' = k then (k', v) :: ms else (k', v') :: setMember k v ms

/-- Modelled from the spec: the key of a member (section 4.3 of the absent
value parser): a quoted string or a bare identifier. -/
def parseKey (s : List UInt8) : Except ParseFailure (List Nat × List UInt8) :=
  match s with
  | [] => .error (.unexpectedEnd, 0)
  | c :: rest =>
    if c = 34 ∨ c = 39 then parseStringBody c rest
    else if isIdentStart c then
      let n := runLength isIdentChar s
      .ok ((s.take n).map UInt8.toNat, s.drop n)
    else .error (.unexpectedToken, s.length)

mutual
/-- Modelled from the spec: the value production of section 4.3 of the absent
value parser, dispatching on the first byte; the first argument bounds the
nesting.  The result is the value and the bytes after it. -/
def parseValue : Nat → List UInt8 → Except ParseFailure (JsValue × List UInt8)
  | 0, s => .error (.tooDeep, s.length)
  | fuel + 1, s =>
    match s with
    | [] => .error (.unexpectedEnd, 0)
    | c :: rest =>
      if c = 123 then
        match skipped rest with
        | 125 :: rest' => .ok (.object [], rest')
        | _ => (parseMembers fuel [] (skipped rest)).map fun r => (.object r.1, r.2)
      else if c = 91 then
        match skipped rest with
        | 93 :: rest' => .ok (.array [], rest')
        | _ => (parseElements fuel (skipped rest)).map fun r => (.array r.1, r.2)
      else if c = 34 ∨ c = 39 then
        (parseStringBody c rest).map fun r => (.string r.1, r.2)
      else if isDigit c ∨ c = 45 then
        match numberLength s with
        | none => .error (.invalidNumber, s.length)
        | some n => .ok (.number (s.take n), s.drop n)
      else if s.take 4 = [116, 114, 117, 101] then .ok (.boolean true, s.drop 4)
      else if s.take 5 = [102, 97, 108, 115, 101] then .ok (.boolean false, s.drop 5)
      else if s.take 4 = [110, 117, 108, 108] then .ok (.null, s.drop 4)
      else .error (.unexpectedToken, s.length)
/-- Modelled from the spec: the members of an object (section 4.3 of the absent
value parser), `member (skip ',' skip member)* skip '}'`. -/
def parseMembers : Nat → List (List Nat × JsValue) → List UInt8 →
    Except ParseFailure (List (List Nat × JsValue) × List UInt8)
  | 0, _, s => .error (.tooDeep, s.length)
  | fuel + 1, acc, s =>
    match parseKey s with
    | .error e => .error e
    | .ok (k, s1) =>
      match skipped s1 with
      | [] => .error (.unexpectedEnd, 0)
      | c :: s2 =>
        if c ≠ 58 then .error (.unexpectedToken, s2.length + 1) else
        match parseValue fuel (skipped s2) with
        | .error e => .error e
        | .ok (v, s3) =>
          let acc := setMember k v acc
          match skipped s3 with
          | [] => .error (.unexpectedEnd, 0)
          | d :: s4 =>
            if d = 125 then .ok (acc, s4)
            else if d = 44 then parseMembers fuel acc (skipped s4)
            else .error (.unexpectedToken, s4.length + 1)
/-- Modelled from the spec: the elements of an array (section 4.3 of the absent
value parser), `value (skip ',' skip value)* skip ']'`. -/
def parseElements : Nat → List UInt8 → Except ParseFailure (List JsValue × List UInt8)
  | 0, s => .error (.tooDeep, s.length)
  | fuel + 1, s =>
    match parseValue fuel s with
    | .error e => .error e
    | .ok (v, s1) =>
      match skipped s1 with
      | [] => .error (.unexpectedEnd, 0)
      | d :: s2 =>
        if d = 93 then .ok ([v], s2)
        else if d = 44 then (parseElements fuel (skipped s2)).map fun r => (v :: r.1, r.2)
        else .error (.unexpectedToken, s2.length + 1)
end

/-- Modelled from the spec: the absent `ParseObject(isolate, begin, end, &size)`
of `parser.cc`, section 4.3: it parses the object that starts the span and
reports the value and the number of bytes it used, or the syntax error and its
offset in the span. -/
def specParseObject (region : List UInt8) : Except ParseFailure (JsValue × Nat) :=
  if region.head? ≠ some 123 then .error (.unexpectedToken, 0) else
  match parseValue (2 * region.length + 2) region with
  | .error (k, remaining) => .error (k, region.length - remaining)
  | .ok (v, rest) => .ok (v, region.length - rest.length)

/-- The buffer `{}`, then `n` spaces, then NUL: one well-formed message of
`n + 3` bytes. -/
def paddedMessage (n : Nat) : List UInt8 :=
  123 :: 125 :: (List.replicate n 32 ++ [0])

/-! ## Lemmas -/

section Lemmas

variable {V E : Type}

theorem toInt32_of_lt {n : Nat} (h : n < 2 ^ 31) : toInt32 n = (n : Int) := by
  unfold toInt32
  have h1 : n % 2 ^ 32 = n := Nat.mod_eq_of_lt (by omega)
  rw [h1, if_pos h]

theorem toInt32_le (n : Nat) : toInt32 n ≤ (n : Int) := by
  unfold toInt32
  have h1 : n % 2 ^ 32 ≤ n := Nat.mod_le _ _
  split <;> omega

theorem span_append_left (b t : List UInt8) (x e : Nat) (he : e ≤ b.length) :
    span (b ++ t) x e = span b x e := by
  unfold span
  by_cases hx : x ≤ e
  · rw [List.drop_append_of_le_length (by omega), List.take_append_of_le_length]
    simp only [List.length_drop]; omega
  · have h0 : e - x = 0 := by omega
    simp [h0]

theorem span_region (pre region tail : List UInt8) (k : Nat) :
    span (pre ++ region ++ tail) (pre.length + k) (pre.length + region.length) =
      region.drop k := by
  unfold span
  rw [List.append_assoc, ← List.drop_drop, List.drop_left]
  have h1 : pre.length + region.length - (pre.length + k) = region.length - k := by omega
  rw [h1]
  by_cases hk : k ≤ region.length
  · rw [List.drop_append_of_le_length hk, List.take_append_of_le_length]
    · rw [List.take_of_length_le]; simp
    · simp
  · have h0 : region.length - k = 0 := by omega
    rw [h0, List.take_zero, List.drop_eq_nil_of_le (by omega)]

theorem getElem?_region (pre region rest : List UInt8) (k : Nat) (hk : k ≤ region.length) :
    (pre ++ region ++ 0 :: rest)[pre.length + k]? = (region ++ [0])[k]? := by
  rw [List.append_assoc, List.getElem?_append_right (by omega)]
  have h1 : pre.length + k - pre.length = k := by omega
  rw [h1]
  by_cases hk2 : k < region.length
  · rw [List.getElem?_append_left hk2, List.getElem?_append_left hk2]
  · have : k = region.length := by omega
    subst this
    rw [List.getElem?_append_right (le_refl _), List.getElem?_append_right (le_refl _)]
    simp

theorem sizeDiff_eq (a b : Nat) :
    ((((a + b : Nat) : Int) - (a : Int)) % (sizeModulus : Int)).toNat = b % sizeModulus := by
  have h1 : (((a + b : Nat) : Int) - (a : Int)) = (b : Int) := by push_cast; ring
  rw [h1, ← Int.ofNat_emod, Int.toNat_ofNat]

/-- The loop body at the NUL that ends `region`, with the cursor at the start
of the region: its result is the verdict on the region. -/
theorem processMessage_region (skip : List UInt8 → Nat) (parse : List UInt8 → Except E (V × Nat))
    (pre region rest : List UInt8) (st : FramerState V)
    (hpl : st.parsed_length = (pre.length : Int)) (hs : skip region ≤ region.length) :
    processMessage skip parse (pre ++ region ++ 0 :: rest) (pre.length + region.length) st =
      match regionVerdict skip parse region with
      | .error o => .error o
      | .ok v => .ok { out := arrayPut st.out st.out_index v
                       out_index := (st.out_index + 1) % 2 ^ 32
                       parsed_length := toInt32 (pre.length + region.length + 1) } := by
  have hsp : ∀ k, span (pre ++ region ++ 0 :: rest) (pre.length + k)
      (pre.length + region.length) = region.drop k := span_region pre region (0 :: rest)
  have hsp0 := hsp 0
  rw [Nat.add_zero, List.drop_zero] at hsp0
  unfold processMessage regionVerdict
  rw [hpl, if_neg (by omega), Int.toNat_ofNat]
  simp only [hsp0, hsp, getElem?_region pre region rest _ hs, sizeDiff_eq, arraySet]
  cases hb : (region ++ [0])[skip region]? with
  | none =>
    rw [List.getElem?_eq_none_iff, List.length_append, List.length_singleton] at hb
    omega
  | some b =>
    by_cases hb2 : b = 123
    · subst hb2
      simp only [ne_eq, not_true_eq_false, if_false]
      cases hp : parse (region.drop (skip region)) with
      | error e => simp
      | ok r =>
        obtain ⟨v, size⟩ := r
        simp only
        split <;> simp
    · simp [hb2]

/-- The loop body never ends the call with a consumed length. -/
theorem processMessage_ne_consumed (skip : List UInt8 → Nat)
    (parse : List UInt8 → Except E (V × Nat)) (str : List UInt8) (i : Nat)
    (st : FramerState V) (n : Int) :
    processMessage skip parse str i st ≠ .error (.consumed n) := by
  unfold processMessage
  simp only [arraySet]
  repeat' split
  all_goals simp

theorem frameLoop_nil (skip : List UInt8 → Nat) (parse : List UInt8 → Except E (V × Nat))
    (str : List UInt8) (i : Nat) (st : FramerState V) :
    frameLoop skip parse str [] i st = (st, .consumed st.parsed_length) := rfl

/-- Bytes other than NUL leave the loop state alone. -/
theorem frameLoop_nulFree (skip : List UInt8 → Nat) (parse : List UInt8 → Except E (V × Nat))
    (str : List UInt8) (r tl : List UInt8) (i : Nat) (st : FramerState V)
    (hr : ∀ c ∈ r, c ≠ 0) :
    frameLoop skip parse str (r ++ tl) i st = frameLoop skip parse str tl (i + r.length) st := by
  induction r generalizing i with
  | nil => simp
  | cons c r ih =>
    have hc : c ≠ 0 := hr c (List.mem_cons_self _ _)
    have hr2 : ∀ d ∈ r, d ≠ 0 := fun d hd => hr d (List.mem_cons_of_mem _ hd)
    rw [List.cons_append, frameLoop, if_neg hc, ih (i + 1) hr2, List.length_cons]
    congr 1
    omega

/-- The loop over `l1 ++ l2` is the loop over `l1` followed, when that one
runs to its end, by the loop over `l2`. -/
theorem frameLoop_append (skip : List UInt8 → Nat) (parse : List UInt8 → Except E (V × Nat))
    (str : List UInt8) (l1 l2 : List UInt8) (i : Nat) (st : FramerState V) :
    frameLoop skip parse str (l1 ++ l2) i st =
      match frameLoop skip parse str l1 i st with
      | (st1, .consumed _) => frameLoop skip parse str l2 (i + l1.length) st1
      | r => r := by
  induction l1 generalizing i st with
  | nil => simp [frameLoop]
  | cons c l1 ih =>
    have hlen : i + (c :: l1).length = i + 1 + l1.length := by simp; omega
    rw [List.cons_append, frameLoop, frameLoop, hlen]
    by_cases hc : c = 0
    · simp only [hc, if_true]
      cases hp : processMessage skip parse str i st with
      | error o =>
        cases o with
        | consumed n => exact absurd hp (processMessage_ne_consumed skip parse str i st n)
        | _ => simp
      | ok st1 => simp only; exact ih (i + 1) st1
    · simp only [hc, if_false]
      exact ih (i + 1) st

/-- When the loop returns a length, it is the cursor of the final state. -/
theorem frameLoop_consumed (skip : List UInt8 → Nat) (parse : List UInt8 → Except E (V × Nat))
    (str : List UInt8) (l : List UInt8) (i : Nat) (st st1 : FramerState V) (n : Int)
    (h : frameLoop skip parse str l i st = (st1, .consumed n)) : n = st1.parsed_length := by
  induction l generalizing i st with
  | nil =>
    simp only [frameLoop, Prod.mk.injEq, Outcome.consumed.injEq] at h
    rw [← h.1, h.2]
  | cons c l ih =>
    rw [frameLoop] at h
    by_cases hc : c = 0
    · simp only [hc, if_true] at h
      cases hp : processMessage skip parse str i st with
      | error o =>
        rw [hp] at h
        simp only [Prod.mk.injEq] at h
        rw [h.2] at hp
        exact absurd hp (processMessage_ne_consumed skip parse str i st n)
      | ok st2 => rw [hp] at h; exact ih (i + 1) st2 h
    · simp only [hc, if_false] at h
      exact ih (i + 1) st h

theorem span_length_le (str : List UInt8) (b e : Nat) : (span str b e).length ≤ e - b := by
  unfold span
  rw [List.length_take]
  exact Nat.min_le_left _ _

/-- After an accepted message the cursor is `i + 1`, converted to `int32_t`. -/
theorem processMessage_ok_parsed_length (skip : List UInt8 → Nat)
    (parse : List UInt8 → Except E (V × Nat)) (str : List UInt8) (i : Nat)
    (st st1 : FramerState V) (h : processMessage skip parse str i st = .ok st1) :
    st1.parsed_length = toInt32 (i + 1) := by
  unfold processMessage at h
  simp only [arraySet] at h
  revert h
  repeat' split
  all_goals simp
  intro h
  rw [← h]

/-- The loop body reads nothing beyond the NUL it handles: bytes appended to
the buffer do not change its result. -/
theorem processMessage_append_right (skip : List UInt8 → Nat)
    (parse : List UInt8 → Except E (V × Nat)) (hskip : ∀ r, skip r ≤ r.length)
    (b t : List UInt8) (i : Nat) (st : FramerState V) (hi : i < b.length)
    (hpl : st.parsed_length ≤ (i : Int)) :
    processMessage skip parse (b ++ t) i st = processMessage skip parse b i st := by
  unfold processMessage
  by_cases hneg : st.parsed_length < 0
  · simp [hneg]
  · simp only [hneg, if_false, span_append_left b t _ i (le_of_lt hi)]
    have h1 := hskip (span b st.parsed_length.toNat i)
    have h2 := span_length_le b st.parsed_length.toNat i
    have h3 : st.parsed_length.toNat + skip (span b st.parsed_length.toNat i) < b.length := by
      omega
    rw [List.getElem?_append_left h3]

/-- The loop over a prefix `b` of the buffer does not depend on what follows
`b` in the buffer. -/
theorem frameLoop_prefix (skip : List UInt8 → Nat) (parse : List UInt8 → Except E (V × Nat))
    (hskip : ∀ r, skip r ≤ r.length) (b t : List UInt8) (l b1 : List UInt8) (i : Nat)
    (st : FramerState V) (hb : b = b1 ++ l) (hi : i = b1.length)
    (hpl : st.parsed_length ≤ (i : Int)) :
    frameLoop skip parse (b ++ t) l i st = frameLoop skip parse b l i st := by
  induction l generalizing b1 i st with
  | nil => simp [frameLoop]
  | cons c l ih =>
    have hlt : i < b.length := by rw [hb, hi]; simp
    have hb2 : b = (b1 ++ [c]) ++ l := by rw [hb]; simp
    have hi2 : i + 1 = (b1 ++ [c]).length := by rw [hi]; simp
    rw [frameLoop, frameLoop, processMessage_append_right skip parse hskip b t i st hlt hpl]
    by_cases hc : c = 0
    · simp only [hc, if_true]
      cases hp : processMessage skip parse b i st with
      | error o => rfl
      | ok st1 =>
        simp only
        refine ih (b1 ++ [c]) (i + 1) st1 hb2 hi2 ?_
        rw [processMessage_ok_parsed_length skip parse b i st st1 hp]
        exact toInt32_le (i + 1)
    · simp only [hc, if_false]
      exact ih (b1 ++ [c]) (i + 1) st hb2 hi2 (by push_cast; omega)

/-- A buffer without NUL leaves the loop state alone and returns the cursor. -/
theorem frameLoop_of_nulFree (skip : List UInt8 → Nat) (parse : List UInt8 → Except E (V × Nat))
    (str t : List UInt8) (i : Nat) (st : FramerState V) (ht : (0 : UInt8) ∉ t) :
    frameLoop skip parse str t i st = (st, .consumed st.parsed_length) := by
  have h := frameLoop_nulFree skip parse str t [] i st
    (fun c hc h0 => ht (h0 ▸ hc))
  rw [List.append_nil] at h
  rw [h, frameLoop]

/-- The leading skip of the token skipper of section 4.2 stays inside the span. -/
theorem specSkipToNextToken_le (r : List UInt8) : specSkipToNextToken r ≤ r.length := by
  induction r with
  | nil => simp [specSkipToNextToken]
  | cons c r ih =>
    rw [specSkipToNextToken]
    split
    · simp only [List.length_cons]; omega
    · omega

/-- The loop over a NUL-free region and its NUL, entered with the cursor at the
start of the region: the verdict on the region decides whether the call ends
there or goes on with the value stored and the cursor after the NUL. -/
theorem frameLoop_region (skip : List UInt8 → Nat) (parse : List UInt8 → Except E (V × Nat))
    (pre region rest : List UInt8) (st : FramerState V)
    (hpl : st.parsed_length = (pre.length : Int)) (hs : skip region ≤ region.length)
    (hreg : (0 : UInt8) ∉ region) :
    frameLoop skip parse (pre ++ region ++ 0 :: rest) (region ++ 0 :: rest) pre.length st =
      match regionVerdict skip parse region with
      | .error o => (st, o)
      | .ok v =>
        frameLoop skip parse (pre ++ region ++ 0 :: rest) rest (pre.length + region.length + 1)
          { out := arrayPut st.out st.out_index v
            out_index := (st.out_index + 1) % 2 ^ 32
            parsed_length := toInt32 (pre.length + region.length + 1) } := by
  rw [frameLoop_nulFree skip parse _ region (0 :: rest) pre.length st
    (fun c hc h0 => hreg (h0 ▸ hc)), frameLoop, if_pos rfl,
    processMessage_region skip parse pre region rest st hpl hs]
  cases regionVerdict skip parse region <;> rfl

/-- When the call on `pre` succeeds and consumes all of `pre`, the loop on a
buffer that starts with `pre` reaches the end of `pre` with the array of that
call and the cursor at `pre.length`. -/
theorem frameLoop_after_prefix (skip : List UInt8 → Nat)
    (parse : List UInt8 → Except E (V × Nat)) (hskip : ∀ r, skip r ≤ r.length)
    (pre l : List UInt8) (out out1 : JsArray V)
    (hpre : ParseNetworkMessages skip parse pre out = (out1, .consumed pre.length)) :
    ∃ st1 : FramerState V, st1.out = out1 ∧ st1.parsed_length = (pre.length : Int) ∧
      frameLoop skip parse (pre ++ l) (pre ++ l) 0
          { out := out, out_index := 0, parsed_length := 0 } =
        frameLoop skip parse (pre ++ l) l pre.length st1 := by
  unfold ParseNetworkMessages at hpre
  simp only [Prod.mk.injEq] at hpre
  cases hr : frameLoop skip parse pre pre 0 { out := out, out_index := 0, parsed_length := 0 } with
  | mk st1 o =>
    rw [hr] at hpre
    simp only at hpre
    obtain ⟨h1, h2⟩ := hpre
    subst h2
    have hn := frameLoop_consumed skip parse pre pre 0 _ st1 _ hr
    refine ⟨st1, h1, hn.symm, ?_⟩
    rw [frameLoop_append,
      frameLoop_prefix skip parse hskip pre l pre [] 0 _ (by simp) (by simp) (by simp), hr]
    simp

/-- The verdict on a region is never a consumed length. -/
theorem regionVerdict_ne_consumed (skip : List UInt8 → Nat)
    (parse : List UInt8 → Except E (V × Nat)) (region : List UInt8) (n : Int) :
    regionVerdict skip parse region ≠ .error (.consumed n) := by
  unfold regionVerdict
  simp only
  repeat' split
  all_goals simp

/-- A rejected region ends the call with the verdict's error and the array
that the call on the accepted prefix leaves. -/
theorem abort_at_region (skip : List UInt8 → Nat)
    (parse : List UInt8 → Except E (V × Nat)) (hskip : ∀ r, skip r ≤ r.length)
    (pre region rest : List UInt8) (out out1 : JsArray V) (o : Outcome E)
    (hpre : ParseNetworkMessages skip parse pre out = (out1, .consumed pre.length))
    (hreg : (0 : UInt8) ∉ region)
    (hrej : regionVerdict skip parse region = .error o) :
    ParseNetworkMessages skip parse (pre ++ region ++ 0 :: rest) out = (out1, o) := by
  obtain ⟨st1, h1, h2, h3⟩ :=
    frameLoop_after_prefix skip parse hskip pre (region ++ 0 :: rest) out out1 hpre
  unfold ParseNetworkMessages
  simp only
  rw [← List.append_assoc] at h3
  rw [h3, frameLoop_region skip parse pre region rest st1 h2 (hskip region) hreg, hrej]
  simp [h1]

/-- An accepted region that ends the buffer: the call succeeds. -/
theorem accept_last_region (skip : List UInt8 → Nat)
    (parse : List UInt8 → Except E (V × Nat)) (hskip : ∀ r, skip r ≤ r.length)
    (pre region : List UInt8) (out out1 : JsArray V) (v : V)
    (hpre : ParseNetworkMessages skip parse pre out = (out1, .consumed pre.length))
    (hreg : (0 : UInt8) ∉ region)
    (hacc : regionVerdict skip parse region = .ok v) :
    (ParseNetworkMessages skip parse (pre ++ region ++ [0]) out).2 =
      .consumed (toInt32 (pre.length + region.length + 1)) := by
  obtain ⟨st1, h1, h2, h3⟩ :=
    frameLoop_after_prefix skip parse hskip pre (region ++ [0]) out out1 hpre
  unfold ParseNetworkMessages
  simp only
  rw [← List.append_assoc] at h3
  rw [h3, frameLoop_region skip parse pre region [] st1 h2 (hskip region) hreg, hacc]
  simp [frameLoop]

/-- The verdict when the byte after the leading skip is not an opening brace. -/
theorem regionVerdict_of_not_brace (skip : List UInt8 → Nat)
    (parse : List UInt8 → Except E (V × Nat)) (region : List UInt8)
    (hbyte : (region ++ [0])[skip region]? ≠ some 123) :
    regionVerdict skip parse region = .error (.syntaxError "Invalid message type") := by
  unfold regionVerdict
  simp only
  rw [if_pos hbyte]

/-- The verdict when the region opens with a brace and `ParseObject` succeeds,
all sizes staying inside the region. -/
theorem regionVerdict_of_parsed (skip : List UInt8 → Nat)
    (parse : List UInt8 → Except E (V × Nat)) (hskip : ∀ r, skip r ≤ r.length)
    (region : List UInt8) (v : V) (size : Nat)
    (hlen : region.length < sizeModulus)
    (hbrace : (region ++ [0])[skip region]? = some 123)
    (hparse : parse (region.drop (skip region)) = .ok (v, size))
    (hsize : size ≤ (region.drop (skip region)).length) :
    regionVerdict skip parse region =
      if skip region + size + skip (region.drop (skip region + size)) ≠ region.length then
        .error (.syntaxError "Invalid format")
      else .ok v := by
  have h1 := hskip region
  have h2 := hskip (region.drop (skip region + size))
  rw [List.length_drop] at hsize h2
  have h3 : (size + skip region) % sizeModulus = skip region + size := by
    rw [Nat.mod_eq_of_lt (by omega)]; omega
  have h4 : (skip region + size + skip (region.drop (skip region + size))) % sizeModulus =
      skip region + size + skip (region.drop (skip region + size)) :=
    Nat.mod_eq_of_lt (by omega)
  unfold regionVerdict
  simp only [hbrace, hparse, h3, h4, Nat.mod_eq_of_lt hlen, ne_eq, not_true_eq_false, if_false]

/-- Storing at an index inside or at the end of the part `a` of an array
`a ++ tail.drop a.length` stores in `a` and keeps the rest of `tail`. -/
theorem arrayPut_append_drop (a tail : JsArray V) (idx : Nat) (v : V) (hidx : idx ≤ a.length) :
    arrayPut (a ++ tail.drop a.length) idx v =
      arrayPut a idx v ++ tail.drop (arrayPut a idx v).length := by
  unfold arrayPut
  by_cases h1 : idx < a.length
  · have h2 : idx < (a ++ tail.drop a.length).length := by
      rw [List.length_append]; omega
    rw [if_pos h1, if_pos h2, List.set_append_left _ _ h1, List.length_set]
  · have h3 : idx = a.length := by omega
    subst h3
    simp only [lt_self_iff_false, if_false, Nat.sub_self, List.replicate_zero, List.append_nil,
      List.length_append, List.length_singleton]
    by_cases h4 : a.length < tail.length
    · have h5 : a.length < a.length + (tail.drop a.length).length := by
        rw [List.length_drop]; omega
      rw [if_pos h5, List.set_append_right _ _ (le_refl _), Nat.sub_self,
        List.drop_eq_getElem_cons h4, List.set_cons_zero, List.append_assoc,
        List.singleton_append]
    · have h5 : tail.drop a.length = [] := List.drop_eq_nil_of_le (by omega)
      have h6 : tail.drop (a.length + 1) = [] := List.drop_eq_nil_of_le (by omega)
      rw [h5, h6]
      simp

theorem length_arrayPut_ge (a : JsArray V) (idx : Nat) (v : V) :
    idx + 1 ≤ (arrayPut a idx v).length := by
  unfold arrayPut
  split
  · rw [List.length_set]; omega
  · simp only [List.length_append, List.length_replicate, List.length_singleton]; omega

/-- The loop body uses the array only to store the value: with another array
it ends the same way, and the next state differs in the array alone. -/
theorem processMessage_out (skip : List UInt8 → Nat)
    (parse : List UInt8 → Except E (V × Nat)) (str : List UInt8) (i : Nat)
    (a b : JsArray V) (idx : Nat) (pl : Int) :
    (∃ o, processMessage skip parse str i { out := a, out_index := idx, parsed_length := pl } =
        .error o ∧
      processMessage skip parse str i { out := b, out_index := idx, parsed_length := pl } =
        .error o) ∨
    (∃ v, processMessage skip parse str i { out := a, out_index := idx, parsed_length := pl } =
        .ok { out := arrayPut a idx v, out_index := (idx + 1) % 2 ^ 32,
              parsed_length := toInt32 (i + 1) } ∧
      processMessage skip parse str i { out := b, out_index := idx, parsed_length := pl } =
        .ok { out := arrayPut b idx v, out_index := (idx + 1) % 2 ^ 32,
              parsed_length := toInt32 (i + 1) }) := by
  unfold processMessage
  simp only [arraySet]
  by_cases hneg : pl < 0
  · left; exact ⟨.undefined, by simp [hneg], by simp [hneg]⟩
  · simp only [hneg, if_false]
    cases str[pl.toNat + skip (span str pl.toNat i)]? with
    | none => left; exact ⟨.undefined, rfl, rfl⟩
    | some c =>
      by_cases hc : c = 123
      · simp only [hc, ne_eq, not_true_eq_false, if_false]
        cases parse (span str (pl.toNat + skip (span str pl.toNat i)) i) with
        | error e => left; exact ⟨.parseError e, rfl, rfl⟩
        | ok r =>
          obtain ⟨v, size⟩ := r
          simp only
          split
          · left; exact ⟨_, rfl, rfl⟩
          · right; exact ⟨v, rfl, rfl⟩
      · left
        exact ⟨.syntaxError "Invalid message type", by simp [hc], by simp [hc]⟩

/-- The loop started with the array `a ++ tail.drop a.length` ends as the loop
started with `a`, its array followed by the entries of `tail` beyond it. -/
theorem frameLoop_out (skip : List UInt8 → Nat) (parse : List UInt8 → Except E (V × Nat))
    (str : List UInt8) (tail : JsArray V) (l : List UInt8) (i : Nat)
    (a : JsArray V) (idx : Nat) (pl : Int) (hidx : idx ≤ a.length) :
    frameLoop skip parse str l i
        { out := a ++ tail.drop a.length, out_index := idx, parsed_length := pl } =
      (let r := frameLoop skip parse str l i { out := a, out_index := idx, parsed_length := pl }
       ({ r.1 with out := r.1.out ++ tail.drop r.1.out.length }, r.2)) := by
  induction l generalizing i a idx pl with
  | nil => simp [frameLoop]
  | cons c l ih =>
    rw [frameLoop, frameLoop]
    by_cases hc : c = 0
    · simp only [hc, if_true]
      rcases processMessage_out skip parse str i (a ++ tail.drop a.length) a idx pl with
        ⟨o, h1, h2⟩ | ⟨v, h1, h2⟩
      · rw [h1, h2]
      · rw [h1, h2]
        simp only
        rw [arrayPut_append_drop a tail idx v hidx]
        refine ih (i + 1) (arrayPut a idx v) _ _ ?_
        have := length_arrayPut_ge a idx v
        have := Nat.mod_le (idx + 1) (2 ^ 32)
        omega
    · simp only [hc, if_false]
      exact ih (i + 1) a idx pl hidx

/-- The call started with the array `out`: the array of the call started with
the empty array, followed by the entries of `out` beyond it; same result. -/
theorem parse_out (skip : List UInt8 → Nat) (parse : List UInt8 → Except E (V × Nat))
    (str : List UInt8) (out : JsArray V) :
    ParseNetworkMessages skip parse str out =
      ((ParseNetworkMessages skip parse str []).1 ++
          out.drop (ParseNetworkMessages skip parse str []).1.length,
        (ParseNetworkMessages skip parse str []).2) := by
  have h := frameLoop_out skip parse str out str 0 [] 0 0 (le_refl _)
  simp only [List.length_nil, List.drop_zero, List.nil_append] at h
  unfold ParseNetworkMessages
  simp only
  rw [h]

/-- The loop body raises a SyntaxError with one of two fixed messages only. -/
theorem processMessage_syntaxError (skip : List UInt8 → Nat)
    (parse : List UInt8 → Except E (V × Nat)) (str : List UInt8) (i : Nat)
    (st : FramerState V) (msg : String)
    (h : processMessage skip parse str i st = .error (.syntaxError msg)) :
    msg = "Invalid message type" ∨ msg = "Invalid format" := by
  unfold processMessage at h
  simp only [arraySet] at h
  revert h
  repeat' split
  all_goals simp
  · intro h; exact Or.inl h.symm
  · intro h; exact Or.inr h.symm

theorem frameLoop_syntaxError (skip : List UInt8 → Nat)
    (parse : List UInt8 → Except E (V × Nat)) (str l : List UInt8) (i : Nat)
    (st : FramerState V) (msg : String)
    (h : (frameLoop skip parse str l i st).2 = .syntaxError msg) :
    msg = "Invalid message type" ∨ msg = "Invalid format" := by
  induction l generalizing i st with
  | nil => simp [frameLoop] at h
  | cons c l ih =>
    rw [frameLoop] at h
    by_cases hc : c = 0
    · simp only [hc, if_true] at h
      cases hp : processMessage skip parse str i st with
      | error o =>
        rw [hp] at h
        simp only at h
        rw [h] at hp
        exact processMessage_syntaxError skip parse str i st msg hp
      | ok st1 => rw [hp] at h; exact ih (i + 1) st1 h
    · simp only [hc, if_false] at h
      exact ih (i + 1) st h

/-- The loop leaves no hole in an array without holes that it writes from an
index inside or at the end of it. -/
theorem frameLoop_noHoles (skip : List UInt8 → Nat) (parse : List UInt8 → Except E (V × Nat))
    (str l : List UInt8) (i : Nat) (a : JsArray V) (idx : Nat) (pl : Int)
    (hidx : idx ≤ a.length) (ha : ∀ e ∈ a, e ≠ none) :
    ∀ e ∈ (frameLoop skip parse str l i
      { out := a, out_index := idx, parsed_length := pl }).1.out, e ≠ none := by
  induction l generalizing i a idx pl with
  | nil => simpa [frameLoop] using ha
  | cons c l ih =>
    rw [frameLoop]
    by_cases hc : c = 0
    · simp only [hc, if_true]
      rcases processMessage_out skip parse str i a a idx pl with ⟨o, h1, _⟩ | ⟨v, h1, _⟩
      · rw [h1]; exact ha
      · rw [h1]
        refine ih (i + 1) (arrayPut a idx v) _ _ ?_ ?_
        · have := length_arrayPut_ge a idx v
          have := Nat.mod_le (idx + 1) (2 ^ 32)
          omega
        · intro e he
          unfold arrayPut at he
          by_cases h2 : idx < a.length
          · rw [if_pos h2] at he
            rcases List.mem_or_eq_of_mem_set he with h3 | h3
            · exact ha e h3
            · rw [h3]; simp
          · have h3 : idx - a.length = 0 := by omega
            rw [if_neg h2, h3] at he
            simp only [List.replicate_zero, List.append_nil, List.mem_append,
              List.mem_singleton] at he
            rcases he with h4 | h4
            · exact ha e h4
            · rw [h4]; simp
    · simp only [hc, if_false]
      exact ih (i + 1) a idx pl hidx ha

/-- A NUL-free tail after the buffer changes nothing. -/
theorem parse_append_nulFree (skip : List UInt8 → Nat)
    (parse : List UInt8 → Except E (V × Nat)) (hskip : ∀ r, skip r ≤ r.length)
    (b t : List UInt8) (out : JsArray V) (ht : (0 : UInt8) ∉ t) :
    ParseNetworkMessages skip parse (b ++ t) out = ParseNetworkMessages skip parse b out := by
  unfold ParseNetworkMessages
  simp only
  rw [frameLoop_append,
    frameLoop_prefix skip parse hskip b t b [] 0 _ (by simp) (by simp) (by simp)]
  cases hr : frameLoop skip parse b b 0 { out := out, out_index := 0, parsed_length := 0 } with
  | mk st1 o =>
    cases o with
    | consumed n =>
      have hn := frameLoop_consumed skip parse b b 0 _ st1 n hr
      simp only
      rw [frameLoop_of_nulFree skip parse (b ++ t) t _ st1 ht, hn]
    | _ => rfl

/-! ### Well-formed messages within the range of `int32_t` -/

theorem regionVerdict_wellFormed (skip : List UInt8 → Nat)
    (parse : List UInt8 → Except E (V × Nat)) (m : Message V)
    (hm : m.WellFormed skip parse) (hlen : m.region.length < sizeModulus) :
    regionVerdict skip parse m.region = .ok m.value := by
  obtain ⟨_, hs1, hobj, hp, hs2⟩ := hm
  have hreg : m.region = m.ws1 ++ (m.obj ++ m.ws2) := by
    unfold Message.region; rw [List.append_assoc]
  have hl : m.region.length = m.ws1.length + m.obj.length + m.ws2.length := by
    unfold Message.region; simp only [List.length_append]
  have hd1 : m.region.drop m.ws1.length = m.obj ++ m.ws2 := by
    rw [hreg, List.drop_left]
  have hd2 : m.region.drop (m.obj.length + m.ws1.length) = m.ws2 := by
    rw [Nat.add_comm, ← List.drop_drop, hd1, List.drop_left]
  have hbyte : (m.region ++ [0])[m.ws1.length]? = some 123 := by
    rw [hreg, List.append_assoc, List.getElem?_append_right (le_refl _), Nat.sub_self]
    cases hobj2 : m.obj with
    | nil => rw [hobj2] at hobj; simp at hobj
    | cons c t =>
      rw [hobj2] at hobj
      simp only [List.head?_cons, Option.some.injEq] at hobj
      simp [hobj]
  have h3 : (m.obj.length + m.ws1.length) % sizeModulus = m.obj.length + m.ws1.length :=
    Nat.mod_eq_of_lt (by omega)
  have h4 : (m.obj.length + m.ws1.length + m.ws2.length) % sizeModulus = m.region.length := by
    rw [Nat.mod_eq_of_lt (by omega)]; omega
  unfold regionVerdict
  simp only [hs1, hbyte, hd1, hp, h3, hd2, hs2, h4, Nat.mod_eq_of_lt hlen, ne_eq,
    not_true_eq_false, if_false]

theorem arrayPut_length (a : JsArray V) (v : V) : arrayPut a a.length v = a ++ [some v] := by
  unfold arrayPut
  simp

/-- The loop over the regions of well-formed messages, entered with the cursor
at their start and the index at the end of the array, while the buffer fits
`int32_t`: every value is appended and the cursor ends at the buffer length. -/
theorem frameLoop_messages (skip : List UInt8 → Nat)
    (parse : List UInt8 → Except E (V × Nat)) (ms : List (Message V))
    (hms : ∀ m ∈ ms, m.WellFormed skip parse)
    (pre : List UInt8) (a : JsArray V) (ha : a.length ≤ pre.length)
    (hlen : (pre ++ messagesBuffer ms).length ≤ int32Max) :
    frameLoop skip parse (pre ++ messagesBuffer ms) (messagesBuffer ms) pre.length
        { out := a, out_index := a.length, parsed_length := pre.length } =
      ({ out := a ++ ms.map (fun m => some m.value)
         out_index := a.length + ms.length
         parsed_length := ((pre ++ messagesBuffer ms).length : Int) },
        .consumed ((pre ++ messagesBuffer ms).length : Int)) := by
  induction ms generalizing pre a with
  | nil => simp [messagesBuffer, frameLoop]
  | cons m ms ih =>
    have hm := hms m (List.mem_cons_self _ _)
    have hms2 : ∀ m2 ∈ ms, m2.WellFormed skip parse :=
      fun m2 h2 => hms m2 (List.mem_cons_of_mem _ h2)
    have hbuf : pre ++ messagesBuffer (m :: ms) =
        pre ++ m.region ++ 0 :: messagesBuffer ms := by
      simp [messagesBuffer]
    have hbuf2 : pre ++ m.region ++ 0 :: messagesBuffer ms =
        (pre ++ m.region ++ [0]) ++ messagesBuffer ms := by simp
    have hl2 : (pre ++ m.region ++ [0]).length = pre.length + m.region.length + 1 := by
      simp only [List.length_append, List.length_singleton]
    have hlen2 : (pre ++ m.region ++ [0] ++ messagesBuffer ms).length ≤ int32Max := by
      rw [← hbuf2, ← hbuf]; exact hlen
    have hlen3 : pre.length + m.region.length + 1 ≤ int32Max := by
      rw [List.length_append, hl2] at hlen2; omega
    have hi32 : int32Max = 2 ^ 31 - 1 := rfl
    have hsz : sizeModulus = 2 ^ 64 := rfl
    have hskip : skip m.region ≤ m.region.length := by
      rw [hm.2.1]; unfold Message.region
      simp only [List.length_append]; omega
    have hv := regionVerdict_wellFormed skip parse m hm (by omega)
    have hstep := frameLoop_region skip parse pre m.region (messagesBuffer ms)
      { out := a, out_index := a.length, parsed_length := pre.length } rfl hskip hm.1
    rw [hv] at hstep
    simp only at hstep
    have hidx : (a.length + 1) % 2 ^ 32 = (a ++ [some m.value]).length := by
      rw [Nat.mod_eq_of_lt (by omega)]; simp
    have hcur : toInt32 (pre.length + m.region.length + 1) =
        ((pre ++ m.region ++ [0]).length : Int) := by
      rw [toInt32_of_lt (by omega), hl2]
    rw [arrayPut_length, hidx, hcur, ← hl2, hbuf2] at hstep
    have hnext := ih hms2 (pre ++ m.region ++ [0]) (a ++ [some m.value])
      (by rw [hl2]; simp only [List.length_append, List.length_singleton]; omega) hlen2
    rw [hnext] at hstep
    have hmb : messagesBuffer (m :: ms) = m.region ++ 0 :: messagesBuffer ms := rfl
    rw [hmb, ← List.append_assoc, hbuf2, hstep]
    simp only [List.map_cons, List.append_assoc, List.singleton_append, List.length_append,
      List.length_singleton, List.length_cons, List.length_nil, Nat.zero_add]
    rw [Nat.add_assoc, Nat.add_comm 1 ms.length]

/-- Well-formed messages, each followed by NUL, in a buffer that fits `int32_t`:
the call stores the values in order and returns the length of the buffer. -/
theorem parse_messages (skip : List UInt8 → Nat)
    (parse : List UInt8 → Except E (V × Nat)) (ms : List (Message V))
    (hms : ∀ m ∈ ms, m.WellFormed skip parse)
    (hlen : (messagesBuffer ms).length ≤ int32Max) :
    ParseNetworkMessages skip parse (messagesBuffer ms) [] =
      (ms.map (fun m => some m.value), .consumed ((messagesBuffer ms).length : Int)) := by
  have h := frameLoop_messages skip parse ms hms [] [] (le_refl _) hlen
  simp only [List.nil_append, List.length_nil, Nat.zero_add] at h
  unfold ParseNetworkMessages
  simp only
  have h0 : ((0 : Nat) : Int) = 0 := rfl
  rw [h0] at h
  rw [h]

/-- The buffer `  {"a":1}  \0`: one value, consumed length 12. -/
theorem parse_messages_example :
    ParseNetworkMessages specSkipToNextToken specParseObject
      [32, 32, 123, 34, 97, 34, 58, 49, 125, 32, 32, 0] [] =
      ([some (.object [([97], .number [49])])], .consumed 12) :=
  parse_messages specSkipToNextToken specParseObject
    [{ ws1 := [32, 32], obj := [123, 34, 97, 34, 58, 49, 125], ws2 := [32, 32],
       value := .object [([97], .number [49])] }]
    (by
      intro m hm
      rw [List.mem_singleton] at hm
      subst hm
      exact ⟨by decide, rfl, rfl, rfl, rfl⟩)
    (by decide)

/-! ### The returned length -/

theorem boundaryFrom_le (l : List UInt8) (i b : Nat) (hb : b ≤ i) :
    boundaryFrom l i b ≤ i + l.length := by
  induction l generalizing i b with
  | nil => simpa [boundaryFrom] using hb
  | cons c l ih =>
    rw [boundaryFrom, List.length_cons]
    have h := ih (i + 1) (if c = 0 then i + 1 else b) (by split <;> omega)
    omega

/-- When the loop returns a length, it is the index after the last NUL,
converted to `int32_t`. -/
theorem frameLoop_consumed_boundary (skip : List UInt8 → Nat)
    (parse : List UInt8 → Except E (V × Nat)) (str l : List UInt8) (i b : Nat)
    (st st1 : FramerState V) (n : Int) (hst : st.parsed_length = toInt32 b)
    (h : frameLoop skip parse str l i st = (st1, .consumed n)) :
    n = toInt32 (boundaryFrom l i b) := by
  induction l generalizing i b st with
  | nil =>
    simp only [frameLoop, Prod.mk.injEq, Outcome.consumed.injEq] at h
    rw [boundaryFrom, ← h.2, hst]
  | cons c l ih =>
    rw [frameLoop] at h
    rw [boundaryFrom]
    by_cases hc : c = 0
    · simp only [hc, if_true] at h ⊢
      cases hp : processMessage skip parse str i st with
      | error o =>
        rw [hp] at h
        simp only [Prod.mk.injEq] at h
        rw [h.2] at hp
        exact absurd hp (processMessage_ne_consumed skip parse str i st n)
      | ok st2 =>
        rw [hp] at h
        exact ih (i + 1) (i + 1) st2
          (processMessage_ok_parsed_length skip parse str i st st2 hp) h
    · simp only [hc, if_false] at h ⊢
      exact ih (i + 1) b st hst h

/-- When the call succeeds, the integer it returns is the index after the last
NUL of the buffer, converted to `int32_t`. -/
theorem parse_consumed_boundary (skip : List UInt8 → Nat)
    (parse : List UInt8 → Except E (V × Nat)) (str : List UInt8) (out : JsArray V) (n : Int)
    (h : (ParseNetworkMessages skip parse str out).2 = .consumed n) :
    n = toInt32 (lastBoundary str) := by
  unfold ParseNetworkMessages at h
  simp only at h
  exact frameLoop_consumed_boundary skip parse str str 0 0 _ _ n rfl (Prod.ext rfl h)

/-- In a buffer that fits `int32_t`, the integer that a successful call returns
is the index after the last NUL: it is non-negative and at most the length of
the buffer. -/
theorem parse_consumed_range (skip : List UInt8 → Nat)
    (parse : List UInt8 → Except E (V × Nat)) (str : List UInt8) (out : JsArray V) (n : Int)
    (hlen : str.length ≤ int32Max)
    (h : (ParseNetworkMessages skip parse str out).2 = .consumed n) :
    n = (lastBoundary str : Int) ∧ 0 ≤ n ∧ n ≤ (str.length : Int) := by
  have hb : lastBoundary str ≤ str.length := by
    have := boundaryFrom_le str 0 0 (le_refl _)
    unfold lastBoundary; omega
  have hi32 : int32Max = 2 ^ 31 - 1 := rfl
  have hn := parse_consumed_boundary skip parse str out n h
  rw [toInt32_of_lt (by omega)] at hn
  omega

/-! ### Resuming at a boundary, within the range of `int32_t` -/

/-- The loop body: the array is used only to store the value. -/
theorem processMessage_eq (skip : List UInt8 → Nat)
    (parse : List UInt8 → Except E (V × Nat)) (str : List UInt8) (i : Nat)
    (st : FramerState V) :
    processMessage skip parse str i st =
      match messageResult skip parse str i st.parsed_length with
      | .error o => .error o
      | .ok v => .ok { out := arrayPut st.out st.out_index v
                       out_index := (st.out_index + 1) % 2 ^ 32
                       parsed_length := toInt32 (i + 1) } := by
  unfold processMessage messageResult
  simp only [arraySet]
  repeat' split
  all_goals simp_all

theorem span_append_right (a b : List UInt8) (x y : Nat) :
    span (a ++ b) (a.length + x) (a.length + y) = span b x y := by
  unfold span
  rw [List.drop_append]
  congr 1
  omega

theorem getElem?_append_shift (a b : List UInt8) (k : Nat) :
    (a ++ b)[a.length + k]? = b[k]? := by
  rw [List.getElem?_append_right (by omega)]
  congr 1
  omega

/-- The loop body on the second part `b` of a buffer `a ++ b`, with the cursor
inside `b`, is the loop body on `b` alone. -/
theorem messageResult_shift (skip : List UInt8 → Nat)
    (parse : List UInt8 → Except E (V × Nat)) (a b : List UInt8) (i c : Nat) :
    messageResult skip parse (a ++ b) (a.length + i) ((a.length + c : Nat) : Int) =
      messageResult skip parse b i (c : Int) := by
  have h1 : ((((a.length + i : Nat) : Int) - ((a.length + c : Nat) : Int)) %
      (sizeModulus : Int)).toNat = (((i : Int) - (c : Int)) % (sizeModulus : Int)).toNat := by
    congr 2
    push_cast
    ring
  unfold messageResult
  rw [if_neg (by omega), if_neg (by omega)]
  simp only [Int.toNat_ofNat, span_append_right, Nat.add_assoc, getElem?_append_shift, h1]

theorem messageResult_ne_consumed (skip : List UInt8 → Nat)
    (parse : List UInt8 → Except E (V × Nat)) (str : List UInt8) (i : Nat) (pl n : Int) :
    messageResult skip parse str i pl ≠ .error (.consumed n) := by
  unfold messageResult
  simp only
  repeat' split
  all_goals simp

/-- The loop on the second part `B` of a buffer `A ++ B` that fits `int32_t`,
entered in appending mode: it is the loop on `B` alone, with the array, the
index and the cursor shifted by what the first part contributed. -/
theorem frameLoop_resume (skip : List UInt8 → Nat)
    (parse : List UInt8 → Except E (V × Nat)) (A B : List UInt8) (a : JsArray V)
    (hlen : (A ++ B).length ≤ int32Max) (ha : a.length ≤ A.length)
    (l B1 : List UInt8) (i c : Nat) (x : JsArray V)
    (hB : B = B1 ++ l) (hi : i = B1.length) (hc : c ≤ i) (hx : x.length ≤ i) :
    frameLoop skip parse (A ++ B) l (A.length + i)
        { out := a ++ x, out_index := a.length + x.length,
          parsed_length := ((A.length + c : Nat) : Int) } =
      (let r := frameLoop skip parse B l i
          { out := x, out_index := x.length, parsed_length := (c : Int) }
       ({ out := a ++ r.1.out, out_index := a.length + r.1.out_index,
          parsed_length := (A.length : Int) + r.1.parsed_length }, r.2.shift A.length)) := by
  have hi32 : int32Max = 2 ^ 31 - 1 := rfl
  induction l generalizing B1 i c x with
  | nil =>
    simp only [frameLoop, Outcome.shift]
    push_cast
    rfl
  | cons ch l ih =>
    have hB2 : B = (B1 ++ [ch]) ++ l := by rw [hB]; simp
    have hi2 : i + 1 = (B1 ++ [ch]).length := by rw [hi]; simp
    have hlt : A.length + i + 1 ≤ int32Max := by
      rw [hB, List.length_append, List.length_append, List.length_cons] at hlen
      omega
    rw [frameLoop, frameLoop]
    by_cases h0 : ch = 0
    · simp only [h0, if_true]
      rw [processMessage_eq, processMessage_eq]
      simp only
      rw [messageResult_shift]
      cases hm : messageResult skip parse B i (c : Int) with
      | error o =>
        cases o with
        | consumed n => exact absurd hm (messageResult_ne_consumed skip parse B i c n)
        | _ => simp only [Outcome.shift]; push_cast; rfl
      | ok v =>
        simp only
        have e1 : arrayPut (a ++ x) (a.length + x.length) v = a ++ (x ++ [some v]) := by
          have := arrayPut_length (a ++ x) v
          rw [List.length_append] at this
          rw [this, List.append_assoc]
        have e2 : (a.length + x.length + 1) % 2 ^ 32 = a.length + (x ++ [some v]).length := by
          rw [Nat.mod_eq_of_lt (by omega)]; simp; omega
        have e3 : toInt32 (A.length + i + 1) = ((A.length + (i + 1) : Nat) : Int) := by
          rw [toInt32_of_lt (by omega)]; rfl
        have e4 : arrayPut x x.length v = x ++ [some v] := arrayPut_length x v
        have e5 : (x.length + 1) % 2 ^ 32 = (x ++ [some v]).length := by
          rw [Nat.mod_eq_of_lt (by omega)]; simp
        have e6 : toInt32 (i + 1) = ((i + 1 : Nat) : Int) := toInt32_of_lt (by omega)
        rw [e1, e2, e3, e4, e5, e6, Nat.add_assoc]
        exact ih (B1 ++ [ch]) (i + 1) (i + 1) (x ++ [some v]) hB2 hi2 (le_refl _)
          (by simp; omega)
    · simp only [h0, if_false]
      rw [Nat.add_assoc]
      exact ih (B1 ++ [ch]) (i + 1) c x hB2 hi2 (by omega) (by omega)

/-- In appending mode and within the range of `int32_t` the index stays at the
end of the array, which holds at most one entry per byte visited. -/
theorem frameLoop_appending (skip : List UInt8 → Nat)
    (parse : List UInt8 → Except E (V × Nat)) (str l : List UInt8) (i : Nat)
    (x : JsArray V) (pl : Int) (hx : x.length ≤ i) (hlen : i + l.length ≤ int32Max) :
    (frameLoop skip parse str l i { out := x, out_index := x.length, parsed_length := pl }).1.out_index
        = (frameLoop skip parse str l i
            { out := x, out_index := x.length, parsed_length := pl }).1.out.length ∧
      (frameLoop skip parse str l i
        { out := x, out_index := x.length, parsed_length := pl }).1.out.length ≤ i + l.length := by
  have hi32 : int32Max = 2 ^ 31 - 1 := rfl
  induction l generalizing i x pl with
  | nil => simpa [frameLoop] using hx
  | cons ch l ih =>
    rw [List.length_cons] at hlen
    rw [frameLoop]
    by_cases h0 : ch = 0
    · simp only [h0, if_true]
      rw [processMessage_eq]
      simp only
      cases hm : messageResult skip parse str i pl with
      | error o => simp only [List.length_cons]; exact ⟨trivial, by omega⟩
      | ok v =>
        simp only
        have e4 : arrayPut x x.length v = x ++ [some v] := arrayPut_length x v
        have e5 : (x.length + 1) % 2 ^ 32 = (x ++ [some v]).length := by
          rw [Nat.mod_eq_of_lt (by omega)]; simp
        rw [e4, e5]
        have h := ih (i + 1) (x ++ [some v]) (toInt32 (i + 1)) (by simp; omega) (by omega)
        rw [List.length_cons]
        exact ⟨h.1, by omega⟩
    · simp only [h0, if_false]
      have h := ih (i + 1) x pl (by omega) (by omega)
      rw [List.length_cons]
      exact ⟨h.1, by omega⟩

theorem boundaryFrom_append_nul (l : List UInt8) (i b : Nat) :
    boundaryFrom (l ++ [0]) i b = i + l.length + 1 := by
  induction l generalizing i b with
  | nil => simp [boundaryFrom]
  | cons c l ih =>
    rw [List.cons_append, boundaryFrom, ih, List.length_cons]
    omega

theorem lastBoundary_of_boundary (A : List UInt8) (hA : A = [] ∨ ∃ A1, A = A1 ++ [0]) :
    lastBoundary A = A.length := by
  rcases hA with h | ⟨A1, h⟩
  · rw [h]; rfl
  · rw [h, lastBoundary, boundaryFrom_append_nul]; simp

/-- Resuming at a boundary, in a buffer that fits `int32_t`: when `A` is empty or
ends with NUL and the call on `A ++ B` succeeds, the call on `A` succeeds and
returns the length of `A`, the call on `B` succeeds, the values of the two
calls, in this order, are the values of the call on `A ++ B`, and the two
returned lengths add up to the returned length of that call. -/
theorem resume_at_boundary (skip : List UInt8 → Nat)
    (parse : List UInt8 → Except E (V × Nat)) (hskip : ∀ r, skip r ≤ r.length)
    (A B : List UInt8) (n : Int) (hA : A = [] ∨ ∃ A1, A = A1 ++ [0])
    (hlen : (A ++ B).length ≤ int32Max)
    (h : (ParseNetworkMessages skip parse (A ++ B) []).2 = .consumed n) :
    ∃ cB : Int,
      (ParseNetworkMessages skip parse A []).2 = .consumed (A.length : Int) ∧
      (ParseNetworkMessages skip parse B []).2 = .consumed cB ∧
      (ParseNetworkMessages skip parse (A ++ B) []).1 =
        (ParseNetworkMessages skip parse A []).1 ++ (ParseNetworkMessages skip parse B []).1 ∧
      n = (A.length : Int) + cB := by
  have hi32 : int32Max = 2 ^ 31 - 1 := rfl
  have hlenA : A.length ≤ int32Max := by rw [List.length_append] at hlen; omega
  unfold ParseNetworkMessages at h ⊢
  simp only at h ⊢
  rw [frameLoop_append,
    frameLoop_prefix skip parse hskip A B A [] 0 _ (by simp) (by simp) (by simp)] at h ⊢
  have happ := frameLoop_appending skip parse A A 0 [] 0 (le_refl _) (by omega)
  rw [List.length_nil] at happ
  cases hr : frameLoop skip parse A A 0 { out := [], out_index := 0, parsed_length := 0 } with
  | mk stA oA =>
    rw [hr] at happ h
    cases oA with
    | consumed nA =>
      have hnA := frameLoop_consumed skip parse A A 0 _ stA nA hr
      have hbA := frameLoop_consumed_boundary skip parse A A 0 0 _ stA nA rfl hr
      rw [← lastBoundary, lastBoundary_of_boundary A hA, toInt32_of_lt (by omega)] at hbA
      obtain ⟨o, idx, pl⟩ := stA
      simp only at h happ hnA ⊢
      obtain ⟨hidx, hol⟩ := happ
      subst hidx
      rw [hbA] at hnA
      subst hnA
      have hres := frameLoop_resume skip parse A B o hlen (by omega) B [] 0 0 [] (by simp)
        rfl (le_refl _) (le_refl _)
      simp only [List.append_nil, List.length_nil, Nat.add_zero, Nat.cast_zero] at hres
      rw [Nat.zero_add, hres] at h ⊢
      simp only at h ⊢
      cases hB : (frameLoop skip parse B B 0
          { out := [], out_index := 0, parsed_length := 0 }).2 with
      | consumed cB =>
        rw [hB] at h
        simp only [Outcome.shift, Outcome.consumed.injEq] at h
        exact ⟨cB, hbA ▸ rfl, rfl, trivial, h.symm⟩
      | _ => rw [hB] at h; simp [Outcome.shift] at h
    | _ => simp at h

/-! ### Bounds of the accesses -/

/-- Under the contracts of `SkipToNextToken` and `ParseObject`, with the cursor
between the start of the buffer and the NUL at `i`, the accesses of the loop
body are in bounds. -/
theorem messageInBounds_of_contract (skip : List UInt8 → Nat)
    (parse : List UInt8 → Except E (V × Nat)) (hskip : ∀ r, skip r ≤ r.length)
    (hparse : ∀ r v n, parse r = .ok (v, n) → n ≤ r.length)
    (str : List UInt8) (i : Nat) (st : FramerState V) (hi : i < str.length)
    (h0 : 0 ≤ st.parsed_length) (h1 : st.parsed_length ≤ (i : Int)) :
    messageInBounds skip parse str i st = true := by
  have hs := hskip (span str st.parsed_length.toNat i)
  have hl := span_length_le str st.parsed_length.toNat i
  have hsz : sizeModulus = 2 ^ 64 := rfl
  unfold messageInBounds
  simp only [Bool.and_eq_true, decide_eq_true_eq]
  refine ⟨⟨h0, h1⟩, by omega, ?_⟩
  split
  · simp only [Bool.and_eq_true, decide_eq_true_eq]
    refine ⟨by omega, ?_⟩
    cases hp : parse (span str (st.parsed_length.toNat +
        skip (span str st.parsed_length.toNat i)) i) with
    | error e => rfl
    | ok r =>
      obtain ⟨v, size⟩ := r
      have h2 := hparse _ v size hp
      have h3 := span_length_le str
        (st.parsed_length.toNat + skip (span str st.parsed_length.toNat i)) i
      have h4 := Nat.mod_le (size + skip (span str st.parsed_length.toNat i)) sizeModulus
      simp only [decide_eq_true_eq]
      omega
  · rfl

/-- Under the contract of `SkipToNextToken`, with the cursor between the start
of the buffer and the NUL at `i`, the loop body does not leave the buffer. -/
theorem processMessage_ne_undefined (skip : List UInt8 → Nat)
    (parse : List UInt8 → Except E (V × Nat)) (hskip : ∀ r, skip r ≤ r.length)
    (str : List UInt8) (i : Nat) (st : FramerState V) (hi : i < str.length)
    (h0 : 0 ≤ st.parsed_length) (h1 : st.parsed_length ≤ (i : Int)) :
    processMessage skip parse str i st ≠ .error .undefined := by
  have hs := hskip (span str st.parsed_length.toNat i)
  have hl := span_length_le str st.parsed_length.toNat i
  have hlt : st.parsed_length.toNat + skip (span str st.parsed_length.toNat i) < str.length := by
    omega
  unfold processMessage
  rw [if_neg (by omega)]
  simp only [arraySet, List.getElem?_eq_getElem hlt]
  repeat' split
  all_goals simp

/-- Under the contracts, in a buffer that fits `int32_t`, the loop entered with
the cursor between the start of the buffer and `i` keeps every access in bounds
and does not end in the outcome `undefined`. -/
theorem frameLoop_in_bounds (skip : List UInt8 → Nat)
    (parse : List UInt8 → Except E (V × Nat)) (hskip : ∀ r, skip r ≤ r.length)
    (hparse : ∀ r v n, parse r = .ok (v, n) → n ≤ r.length)
    (str : List UInt8) (hlen : str.length ≤ int32Max)
    (l b1 : List UInt8) (i : Nat) (st : FramerState V)
    (hb : str = b1 ++ l) (hi : i = b1.length)
    (h0 : 0 ≤ st.parsed_length) (h1 : st.parsed_length ≤ (i : Int)) :
    loopInBounds skip parse str l i st = true ∧
      (frameLoop skip parse str l i st).2 ≠ .undefined := by
  have hi32 : int32Max = 2 ^ 31 - 1 := rfl
  induction l generalizing b1 i st with
  | nil => simp [loopInBounds, frameLoop]
  | cons c l ih =>
    have hlt : i < str.length := by rw [hb, hi]; simp
    have hb2 : str = (b1 ++ [c]) ++ l := by rw [hb]; simp
    have hi2 : i + 1 = (b1 ++ [c]).length := by rw [hi]; simp
    rw [loopInBounds, frameLoop]
    simp only [Bool.and_eq_true, decide_eq_true_eq]
    by_cases hc : c = 0
    · simp only [hc, if_true, Bool.and_eq_true]
      have hm := messageInBounds_of_contract skip parse hskip hparse str i st hlt h0 h1
      cases hp : processMessage skip parse str i st with
      | error o =>
        refine ⟨⟨hlt, hm, rfl⟩, ?_⟩
        intro ho
        simp only at ho
        rw [ho] at hp
        exact processMessage_ne_undefined skip parse hskip str i st hlt h0 h1 hp
      | ok st1 =>
        have hpl := processMessage_ok_parsed_length skip parse str i st st1 hp
        rw [toInt32_of_lt (by omega)] at hpl
        have h := ih (b1 ++ [c]) (i + 1) st1 hb2 hi2 (by rw [hpl]; omega) (by rw [hpl])
        exact ⟨⟨hlt, hm, h.1⟩, h.2⟩
    · simp only [hc, if_false]
      have h := ih (b1 ++ [c]) (i + 1) st hb2 hi2 h0 (by push_cast; omega)
      exact ⟨⟨hlt, h.1⟩, h.2⟩

/-- The bounds are a real condition: a skipper that breaks its contract takes
the brace test outside the buffer. -/
theorem loopInBounds_wild_skipper :
    loopInBounds (fun _ => 100) specParseObject [123, 125, 0] [123, 125, 0] 0
      { out := [], out_index := 0, parsed_length := 0 } = false ∧
    (ParseNetworkMessages (fun _ => 100) specParseObject [123, 125, 0] []).2 = .undefined :=
  ⟨rfl, rfl⟩

theorem specParseObject_size_le (r : List UInt8) (v : JsValue) (n : Nat)
    (h : specParseObject r = .ok (v, n)) : n ≤ r.length := by
  unfold specParseObject at h
  split at h
  · exact absurd h (by simp)
  · split at h
    · exact absurd h (by simp)
    · simp only [Except.ok.injEq, Prod.mk.injEq] at h
      omega

/-! ### The loop and the reference definition -/

theorem splitAtNul_ne_nil (l : List UInt8) : splitAtNul l ≠ [] := by
  cases l with
  | nil => simp [splitAtNul]
  | cons c l =>
    rw [splitAtNul]
    split
    · simp
    · split <;> simp

theorem splitAtNul_nulFree (t : List UInt8) (ht : (0 : UInt8) ∉ t) : splitAtNul t = [t] := by
  induction t with
  | nil => rfl
  | cons c t ih =>
    have hc : c ≠ 0 := fun h => ht (h ▸ List.mem_cons_self _ _)
    have ht2 : (0 : UInt8) ∉ t := fun h => ht (List.mem_cons_of_mem _ h)
    rw [splitAtNul, if_neg hc, ih ht2]

theorem splitAtNul_region (region rest : List UInt8) (hreg : (0 : UInt8) ∉ region) :
    splitAtNul (region ++ 0 :: rest) = region :: splitAtNul rest := by
  induction region with
  | nil => rw [List.nil_append, splitAtNul, if_pos rfl]
  | cons c t ih =>
    have hc : c ≠ 0 := fun h => hreg (h ▸ List.mem_cons_self _ _)
    have ht2 : (0 : UInt8) ∉ t := fun h => hreg (List.mem_cons_of_mem _ h)
    rw [List.cons_append, splitAtNul, if_neg hc, ih ht2]

theorem terminatedPieces_nulFree (t : List UInt8) (ht : (0 : UInt8) ∉ t) :
    terminatedPieces t = [] := by
  rw [terminatedPieces, splitAtNul_nulFree t ht]
  rfl

theorem terminatedPieces_region (region rest : List UInt8) (hreg : (0 : UInt8) ∉ region) :
    terminatedPieces (region ++ 0 :: rest) = region :: terminatedPieces rest := by
  rw [terminatedPieces, splitAtNul_region region rest hreg,
    List.dropLast_cons_of_ne_nil (splitAtNul_ne_nil rest), terminatedPieces]

/-- Under the contracts of the skipper and the parser, on a region whose length
`size_t` represents, the verdict of the loop body is the check of the
specification. -/
theorem regionVerdict_eq_referenceCheck (skip : List UInt8 → Nat)
    (parse : List UInt8 → Except E (V × Nat)) (hskip : ∀ r, skip r ≤ r.length)
    (hparse : ∀ r v n, parse r = .ok (v, n) → n ≤ r.length)
    (region : List UInt8) (hlen : region.length < sizeModulus) :
    regionVerdict skip parse region = referenceCheck skip parse region := by
  by_cases hb : (region ++ [0])[skip region]? = some 123
  · cases hp : parse (region.drop (skip region)) with
    | error e =>
      unfold regionVerdict referenceCheck
      simp only [hb, hp, ne_eq, not_true_eq_false, if_false]
    | ok r =>
      obtain ⟨v, size⟩ := r
      rw [regionVerdict_of_parsed skip parse hskip region v size hlen hb hp
        (hparse _ v size hp)]
      unfold referenceCheck
      simp only [hb, hp, ne_eq, not_true_eq_false, if_false]
  · rw [regionVerdict_of_not_brace skip parse region hb]
    unfold referenceCheck
    simp only [ne_eq, hb, not_false_eq_true, if_true]

theorem Outcome.shift_shift (o : Outcome E) (a b : Nat) :
    (o.shift a).shift b = o.shift (b + a) := by
  cases o <;> simp only [Outcome.shift]
  congr 1
  push_cast
  ring

theorem Outcome.shift_of_ne_consumed (o : Outcome E) (a : Nat) (h : ∀ n, o ≠ .consumed n) :
    o.shift a = o := by
  cases o with
  | consumed n => exact absurd rfl (h n)
  | _ => rfl

/-- In a buffer that fits `int32_t`, under the contracts of the skipper and the
parser: the loop entered in appending mode at the end of a NUL-free stretch
`reg` that starts at the cursor stores the values of the reference definition
and ends as it does. -/
theorem frameLoop_reference (skip : List UInt8 → Nat)
    (parse : List UInt8 → Except E (V × Nat)) (hskip : ∀ r, skip r ≤ r.length)
    (hparse : ∀ r v n, parse r = .ok (v, n) → n ≤ r.length)
    (str : List UInt8) (hlen : str.length ≤ int32Max)
    (l reg pre : List UInt8) (a : JsArray V)
    (hstr : str = pre ++ reg ++ l) (hreg : (0 : UInt8) ∉ reg) (ha : a.length ≤ pre.length) :
    (frameLoop skip parse str l (pre.length + reg.length)
        { out := a, out_index := a.length, parsed_length := pre.length }).1.out =
      a ++ (referenceProcess skip parse (terminatedPieces (reg ++ l))).1.map some ∧
    (frameLoop skip parse str l (pre.length + reg.length)
        { out := a, out_index := a.length, parsed_length := pre.length }).2 =
      (referenceProcess skip parse (terminatedPieces (reg ++ l))).2.shift pre.length := by
  have hi32 : int32Max = 2 ^ 31 - 1 := rfl
  have hsz : sizeModulus = 2 ^ 64 := rfl
  induction l generalizing reg pre a with
  | nil =>
    rw [List.append_nil, terminatedPieces_nulFree reg hreg]
    simp [frameLoop, referenceProcess, Outcome.shift]
  | cons c l ih =>
    have hL : pre.length + reg.length + 1 + l.length = str.length := by
      rw [hstr]; simp only [List.length_append, List.length_cons]; omega
    by_cases hc : c = 0
    · subst hc
      have hv := regionVerdict_eq_referenceCheck skip parse hskip hparse reg (by omega)
      have hstep := processMessage_region skip parse pre reg l
        { out := a, out_index := a.length, parsed_length := pre.length } rfl (hskip reg)
      rw [← hstr, hv] at hstep
      rw [frameLoop, if_pos rfl, hstep, terminatedPieces_region reg l hreg, referenceProcess]
      cases hchk : referenceCheck skip parse reg with
      | error o =>
        have hne : ∀ n, o ≠ .consumed n := by
          intro n hn
          rw [← hv, hn] at hchk
          exact regionVerdict_ne_consumed skip parse reg n hchk
        simp only [List.map_nil, List.append_nil, Outcome.shift_of_ne_consumed o _ hne,
          and_self]
      | ok v =>
        simp only
        have e1 : arrayPut a a.length v = a ++ [some v] := arrayPut_length a v
        have e2 : (a.length + 1) % 2 ^ 32 = (a ++ [some v]).length := by
          rw [Nat.mod_eq_of_lt (by omega)]; simp
        have e3 : toInt32 (pre.length + reg.length + 1) =
            (((pre ++ reg ++ [0]).length : Nat) : Int) := by
          rw [toInt32_of_lt (by omega)]
          simp only [List.length_append, List.length_singleton]
        have e4 : pre.length + reg.length + 1 =
            (pre ++ reg ++ [0]).length + ([] : List UInt8).length := by
          simp only [List.length_append, List.length_singleton, List.length_nil, Nat.add_zero]
        have hnext := ih [] (pre ++ reg ++ [0]) (a ++ [some v]) (by rw [hstr]; simp)
          (by simp) (by simp; omega)
        rw [e1, e2, e3, e4]
        rw [List.nil_append] at hnext
        rw [hnext.1, hnext.2, Outcome.shift_shift]
        constructor
        · simp
        · congr 1
          simp only [List.length_append, List.length_singleton]
          omega
    · have hnext := ih (reg ++ [c]) pre a (by rw [hstr]; simp)
        (by
          intro h
          rcases List.mem_append.mp h with h1 | h1
          · exact hreg h1
          · exact hc (List.mem_singleton.mp h1).symm) ha
      have e1 : pre.length + (reg ++ [c]).length = pre.length + reg.length + 1 := by
        simp; omega
      have e2 : reg ++ [c] ++ l = reg ++ c :: l := by simp
      rw [e1, e2] at hnext
      rw [frameLoop, if_neg hc]
      exact hnext

/-- In a buffer that fits `int32_t`, under the contracts of the skipper and the
parser, the call started with the empty array is the reference definition. -/
theorem parse_eq_reference (skip : List UInt8 → Nat)
    (parse : List UInt8 → Except E (V × Nat)) (hskip : ∀ r, skip r ≤ r.length)
    (hparse : ∀ r v n, parse r = .ok (v, n) → n ≤ r.length)
    (str : List UInt8) (hlen : str.length ≤ int32Max) :
    ParseNetworkMessages skip parse str [] =
      ((referenceParse skip parse str).1.map some, (referenceParse skip parse str).2) := by
  have h := frameLoop_reference skip parse hskip hparse str hlen str [] [] [] (by simp)
    (by simp) (le_refl _)
  simp only [List.length_nil, Nat.add_zero, List.nil_append, Nat.cast_zero] at h
  unfold ParseNetworkMessages referenceParse
  simp only
  rw [h.1, h.2]
  congr 1
  cases (referenceProcess skip parse (terminatedPieces str)).2 <;> simp [Outcome.shift]

/-! ### Streaming at an arbitrary cut, within the range of `int32_t` -/

theorem boundaryFrom_append_of_ne (l : List UInt8) (c : UInt8) (hc : c ≠ 0) (i b : Nat) :
    boundaryFrom (l ++ [c]) i b = boundaryFrom l i b := by
  induction l generalizing i b with
  | nil => simp [boundaryFrom, hc]
  | cons d l ih => rw [List.cons_append, boundaryFrom, boundaryFrom, ih]

/-- Every buffer is a part that is empty or ends with NUL, of the length
`lastBoundary`, followed by a NUL-free part. -/
theorem boundary_split (l : List UInt8) :
    ∃ A t : List UInt8, l = A ++ t ∧ (A = [] ∨ ∃ A1, A = A1 ++ [0]) ∧ (0 : UInt8) ∉ t ∧
      lastBoundary l = A.length := by
  induction l using List.reverseRecOn with
  | nil => exact ⟨[], [], rfl, Or.inl rfl, by simp, rfl⟩
  | append_singleton l c ih =>
    by_cases hc : c = 0
    · subst hc
      refine ⟨l ++ [0], [], by simp, Or.inr ⟨l, rfl⟩, by simp, ?_⟩
      rw [lastBoundary, boundaryFrom_append_nul]
      simp
    · obtain ⟨A, t, hl, hA, ht, hb⟩ := ih
      refine ⟨A, t ++ [c], by rw [hl, List.append_assoc], hA, ?_, ?_⟩
      · intro h
        rcases List.mem_append.mp h with h1 | h1
        · exact ht h1
        · exact hc (List.mem_singleton.mp h1).symm
      · rw [lastBoundary, boundaryFrom_append_of_ne l c hc, ← lastBoundary, hb]

/-- Streaming at an arbitrary cut, in a buffer that fits `int32_t`: when the call
on `b` succeeds and `p` is a position of `b`, the call on the first `p` bytes
succeeds and returns some `c1 ≤ p`, the call on the bytes from `c1` on
succeeds, the values of the two calls, in this order, are the values of the
call on `b`, and the two returned lengths add up to the length returned for
`b`. -/
theorem stream_at_cut (skip : List UInt8 → Nat)
    (parse : List UInt8 → Except E (V × Nat)) (hskip : ∀ r, skip r ≤ r.length)
    (b : List UInt8) (p : Nat) (n : Int) (hlen : b.length ≤ int32Max)
    (h : (ParseNetworkMessages skip parse b []).2 = .consumed n) :
    ∃ (c1 : Nat) (c2 : Int),
      (ParseNetworkMessages skip parse (b.take p) []).2 = .consumed (c1 : Int) ∧
      c1 ≤ p ∧
      (ParseNetworkMessages skip parse (b.drop c1) []).2 = .consumed c2 ∧
      (ParseNetworkMessages skip parse b []).1 =
        (ParseNetworkMessages skip parse (b.take p) []).1 ++
          (ParseNetworkMessages skip parse (b.drop c1) []).1 ∧
      n = (c1 : Int) + c2 := by
  obtain ⟨A, t, hAt, hA, ht, _⟩ := boundary_split (b.take p)
  have hb : b = A ++ (t ++ b.drop p) := by
    rw [← List.append_assoc, ← hAt, List.take_append_drop]
  have hlen2 : (A ++ (t ++ b.drop p)).length ≤ int32Max := by rw [← hb]; exact hlen
  have h2 : (ParseNetworkMessages skip parse (A ++ (t ++ b.drop p)) []).2 = .consumed n := by
    rw [← hb]; exact h
  obtain ⟨cB, r1, r2, r3, r4⟩ :=
    resume_at_boundary skip parse hskip A (t ++ b.drop p) n hA hlen2 h2
  have htake : ParseNetworkMessages skip parse (b.take p) [] =
      ParseNetworkMessages skip parse A ([] : JsArray V) := by
    rw [hAt]; exact parse_append_nulFree skip parse hskip A t [] ht
  have hdrop : b.drop A.length = t ++ b.drop p := by
    conv_lhs => rw [hb]
    exact List.drop_left _ _
  have hAp : A.length ≤ p := by
    have h1 : (b.take p).length ≤ p := by rw [List.length_take]; exact Nat.min_le_left _ _
    rw [hAt, List.length_append] at h1
    omega
  refine ⟨A.length, cB, ?_, hAp, ?_, ?_, r4⟩
  · rw [htake]; exact r1
  · rw [hdrop]; exact r2
  · rw [htake, hdrop]
    conv_lhs => rw [hb]
    exact r3

/-! ### The values stored and their indices -/

/-- The loop stores at most one value per byte it visits. -/
theorem length_storedValues_le (skip : List UInt8 → Nat)
    (parse : List UInt8 → Except E (V × Nat)) (str l : List UInt8) (i : Nat) (pl : Int) :
    (storedValues skip parse str l i pl).length ≤ l.length := by
  induction l generalizing i pl with
  | nil => simp [storedValues]
  | cons c l ih =>
    rw [storedValues]
    split
    · split
      · simp
      · simp only [List.length_cons]
        have := ih (i + 1) (toInt32 (i + 1))
        omega
    · have := ih (i + 1) pl
      simp only [List.length_cons]
      omega

/-- While the index fits `uint32_t`, the loop entered in appending mode appends
the values it stores, in the order in which it stores them. -/
theorem frameLoop_stored (skip : List UInt8 → Nat)
    (parse : List UInt8 → Except E (V × Nat)) (str l : List UInt8) (i : Nat)
    (x : JsArray V) (pl : Int)
    (hlen : x.length + (storedValues skip parse str l i pl).length < 2 ^ 32) :
    (frameLoop skip parse str l i
        { out := x, out_index := x.length, parsed_length := pl }).1.out =
      x ++ (storedValues skip parse str l i pl).map some := by
  induction l generalizing i x pl with
  | nil => simp [frameLoop, storedValues]
  | cons c l ih =>
    rw [storedValues] at hlen
    rw [frameLoop, storedValues]
    by_cases h0 : c = 0
    · simp only [h0, if_true] at hlen ⊢
      rw [processMessage_eq]
      simp only
      cases hm : messageResult skip parse str i pl with
      | error o => simp
      | ok v =>
        rw [hm] at hlen
        simp only [List.length_cons] at hlen
        simp only
        have e4 : arrayPut x x.length v = x ++ [some v] := arrayPut_length x v
        have e5 : (x.length + 1) % 2 ^ 32 = (x ++ [some v]).length := by
          rw [Nat.mod_eq_of_lt (by omega)]; simp
        rw [e4, e5, ih (i + 1) (x ++ [some v]) (toInt32 (i + 1)) (by simp; omega)]
        simp
    · simp only [h0, if_false] at hlen ⊢
      exact ih (i + 1) x pl hlen

/-- While the index fits `uint32_t`, the call started with the empty array
leaves the values it stores, in the order in which it stores them. -/
theorem parse_stored (skip : List UInt8 → Nat)
    (parse : List UInt8 → Except E (V × Nat)) (str : List UInt8)
    (hlen : (storedValues skip parse str str 0 0).length < 2 ^ 32) :
    (ParseNetworkMessages skip parse str []).1 =
      (storedValues skip parse str str 0 0).map some := by
  have h := frameLoop_stored skip parse str str 0 [] 0 (by simpa using hlen)
  rw [List.nil_append] at h
  unfold ParseNetworkMessages
  exact h

/-- The values stored for well-formed messages in a buffer that fits `int32_t`:
one value per message, in message order. -/
theorem storedValues_messages (skip : List UInt8 → Nat)
    (parse : List UInt8 → Except E (V × Nat)) (ms : List (Message V))
    (hms : ∀ m ∈ ms, m.WellFormed skip parse)
    (hlen : (messagesBuffer ms).length ≤ int32Max) :
    storedValues skip parse (messagesBuffer ms) (messagesBuffer ms) 0 0 =
      ms.map (fun m => m.value) := by
  have hi32 : int32Max = 2 ^ 31 - 1 := rfl
  have hle := length_storedValues_le skip parse (messagesBuffer ms) (messagesBuffer ms) 0 0
  have h1 := parse_stored skip parse (messagesBuffer ms) (by omega)
  rw [parse_messages skip parse ms hms hlen] at h1
  have h2 : ms.map (fun m => some m.value) = (ms.map (fun m => m.value)).map some := by
    rw [List.map_map]; rfl
  simp only at h1
  rw [h2] at h1
  exact (List.map_injective_iff.mpr (Option.some_injective V) h1).symm

/-! ### A rejected region after accepted messages -/

/-- After well-formed messages in a buffer that fits `int32_t`, a rejected region
ends the call with its error; the array holds the values of the messages, one
per message and in message order, whatever follows the NUL of the region. -/
theorem abort_after_messages (skip : List UInt8 → Nat)
    (parse : List UInt8 → Except E (V × Nat)) (hskip : ∀ r, skip r ≤ r.length)
    (ms : List (Message V)) (hms : ∀ m ∈ ms, m.WellFormed skip parse)
    (hlen : (messagesBuffer ms).length ≤ int32Max)
    (region rest : List UInt8) (o : Outcome E) (hreg : (0 : UInt8) ∉ region)
    (hrej : regionVerdict skip parse region = .error o) :
    ParseNetworkMessages skip parse (messagesBuffer ms ++ region ++ 0 :: rest) [] =
      (ms.map (fun m => some m.value), o) :=
  abort_at_region skip parse hskip (messagesBuffer ms) region rest [] _ o
    (parse_messages skip parse ms hms hlen) hreg hrej

/-- When the call on `A` returns a negative integer (the cursor has wrapped), the
next NUL after `A` makes `str + parsed_length` point before the buffer: the
call on a buffer that goes on after `A` with a NUL-free region and a NUL has no
defined behaviour. -/
theorem undefined_after_negative_cursor (skip : List UInt8 → Nat)
    (parse : List UInt8 → Except E (V × Nat)) (hskip : ∀ r, skip r ≤ r.length)
    (A region rest : List UInt8) (out out1 : JsArray V) (n : Int)
    (hA : ParseNetworkMessages skip parse A out = (out1, .consumed n)) (hn : n < 0)
    (hreg : (0 : UInt8) ∉ region) :
    ParseNetworkMessages skip parse (A ++ region ++ 0 :: rest) out = (out1, .undefined) := by
  unfold ParseNetworkMessages at hA ⊢
  simp only [Prod.mk.injEq] at hA
  simp only
  rw [List.append_assoc, frameLoop_append,
    frameLoop_prefix skip parse hskip A (region ++ 0 :: rest) A [] 0 _ (by simp) (by simp)
      (by simp)]
  cases hr : frameLoop skip parse A A 0 { out := out, out_index := 0, parsed_length := 0 } with
  | mk st1 o =>
    rw [hr] at hA
    simp only at hA
    obtain ⟨h1, h2⟩ := hA
    subst h2
    have hpl := frameLoop_consumed skip parse A A 0 _ st1 n hr
    simp only
    rw [frameLoop_nulFree skip parse _ region (0 :: rest) _ st1
      (fun c hc h0 => hreg (h0 ▸ hc)), frameLoop, if_pos rfl]
    have hpm : processMessage skip parse (A ++ (region ++ 0 :: rest))
        (0 + A.length + region.length) st1 = .error .undefined := by
      unfold processMessage
      rw [if_pos (by omega)]
    rw [hpm, h1]

/-! ### The padded message -/


theorem specSkipToNextToken_replicate (n : Nat) :
    specSkipToNextToken (List.replicate n 32) = n := by
  induction n with
  | zero => rfl
  | succ n ih =>
    rw [List.replicate_succ, specSkipToNextToken, ih]
    rfl

theorem specParseObject_emptyObject (rest : List UInt8) :
    specParseObject (123 :: 125 :: rest) = .ok (.object [], 2) := by
  have h : parseValue (2 * (123 :: 125 :: rest).length + 1 + 1) (123 :: 125 :: rest) =
      .ok (.object [], rest) := by
    rw [parseValue]
    rfl
  unfold specParseObject
  rw [if_neg (by simp), h]
  simp only [List.length_cons, Except.ok.injEq, Prod.mk.injEq, true_and]
  omega

theorem not_mem_emptyObject_spaces (n : Nat) :
    (0 : UInt8) ∉ 123 :: 125 :: List.replicate n 32 := by
  intro h
  rcases List.mem_cons.mp h with h1 | h1
  · exact absurd h1 (by decide)
  · rcases List.mem_cons.mp h1 with h2 | h2
    · exact absurd h2 (by decide)
    · exact absurd (List.eq_of_mem_replicate h2) (by decide)

theorem regionVerdict_emptyObject_spaces (n : Nat) (hn : n + 2 < sizeModulus) :
    regionVerdict specSkipToNextToken specParseObject (123 :: 125 :: List.replicate n 32) =
      .ok (.object []) := by
  have hs : specSkipToNextToken (123 :: 125 :: List.replicate n 32) = 0 := rfl
  have hv := regionVerdict_of_parsed specSkipToNextToken specParseObject
    specSkipToNextToken_le (123 :: 125 :: List.replicate n 32) (.object []) 2
    (by simp only [List.length_cons, List.length_replicate]; omega)
    (by rw [hs]; rfl)
    (by rw [hs]; exact specParseObject_emptyObject _)
    (by rw [hs]; simp)
  have h2 : List.drop 2 (123 :: 125 :: List.replicate n (32 : UInt8)) = List.replicate n 32 :=
    rfl
  rw [hv, hs, Nat.zero_add, h2, specSkipToNextToken_replicate, if_neg]
  simp only [List.length_cons, List.length_replicate, ne_eq, not_not]
  omega

/-- The call on the padded message: the value of `{}` is stored at index 0 and
the result is the length `n + 3`, converted to `int32_t`. -/
theorem parse_paddedMessage (n : Nat) (hn : n + 2 < sizeModulus) (out : JsArray JsValue) :
    ParseNetworkMessages specSkipToNextToken specParseObject (paddedMessage n) out =
      (arrayPut out 0 (.object []), .consumed (toInt32 (n + 3))) := by
  have h := frameLoop_region specSkipToNextToken specParseObject []
    (123 :: 125 :: List.replicate n 32) [] { out := out, out_index := 0, parsed_length := 0 }
    rfl (specSkipToNextToken_le _) (not_mem_emptyObject_spaces n)
  rw [regionVerdict_emptyObject_spaces n hn] at h
  simp only [List.nil_append, List.length_nil, Nat.zero_add, List.length_cons,
    List.length_replicate, frameLoop_nil] at h
  have hp : paddedMessage n = (123 :: 125 :: List.replicate n 32) ++ [0] := rfl
  unfold ParseNetworkMessages
  simp only
  rw [hp, h]

theorem toInt32_two_pow_31 : toInt32 (2 ^ 31 - 3 + 3) = -2147483648 := by
  decide

theorem length_paddedMessage (n : Nat) : (paddedMessage n).length = n + 3 := by
  simp only [paddedMessage, List.length_cons, List.length_append, List.length_replicate,
    List.length_singleton, List.length_nil]

theorem getElem?_paddedMessage_last (n : Nat) : (paddedMessage n)[n + 2]? = some 0 := by
  have h : paddedMessage n = (123 :: 125 :: List.replicate n 32) ++ [0] := rfl
  have hl : (123 :: 125 :: List.replicate n (32 : UInt8)).length = n + 2 := by
    simp only [List.length_cons, List.length_replicate]
  rw [h, List.getElem?_append_right (by rw [hl]), hl, Nat.sub_self]
  rfl

/-- The call on the padded message of `2^31` bytes. -/
theorem parse_paddedMessage_two_pow_31 :
    ParseNetworkMessages specSkipToNextToken specParseObject (paddedMessage (2 ^ 31 - 3)) [] =
      ([some (.object [])], .consumed (-2147483648)) := by
  rw [parse_paddedMessage (2 ^ 31 - 3) (by decide) [], toInt32_two_pow_31]
  rfl

/-- The reference definition on the padded message: one value and the length
`n + 3`. -/
theorem reference_paddedMessage (n : Nat) (hn : n + 2 < sizeModulus) :
    referenceParse specSkipToNextToken specParseObject (paddedMessage n) =
      ([.object []], .consumed ((n + 3 : Nat) : Int)) := by
  have hp : paddedMessage n = (123 :: 125 :: List.replicate n 32) ++ 0 :: [] := rfl
  have hl : (123 :: 125 :: List.replicate n (32 : UInt8)).length = n + 2 := by
    simp only [List.length_cons, List.length_replicate]
  have hv := regionVerdict_eq_referenceCheck specSkipToNextToken specParseObject
    specSkipToNextToken_le specParseObject_size_le (123 :: 125 :: List.replicate n 32)
    (by rw [hl]; exact hn)
  rw [regionVerdict_emptyObject_spaces n hn] at hv
  have ht : terminatedPieces ([] : List UInt8) = [] := rfl
  rw [referenceParse, hp, terminatedPieces_region _ _ (not_mem_emptyObject_spaces n), ht,
    referenceProcess, ← hv]
  simp only [referenceProcess, Outcome.shift, hl, Int.add_zero]

theorem reference_paddedMessage_two_pow_31 :
    referenceParse specSkipToNextToken specParseObject (paddedMessage (2 ^ 31 - 3)) =
      ([.object []], .consumed 2147483648) := by
  rw [reference_paddedMessage (2 ^ 31 - 3) (by decide)]
  rfl

theorem take_paddedMessage_two_pow_31 :
    (paddedMessage (2 ^ 31 - 3)).take (2 ^ 31) = paddedMessage (2 ^ 31 - 3) :=
  List.take_of_length_le (by rw [length_paddedMessage]; decide)

/-- After the padded message of `2^31` bytes, which is accepted and stored, the
cursor is negative: a further NUL-free region and its NUL take the call outside
the buffer. -/
theorem parse_after_paddedMessage (region rest : List UInt8) (hreg : (0 : UInt8) ∉ region) :
    ParseNetworkMessages specSkipToNextToken specParseObject
      (paddedMessage (2 ^ 31 - 3) ++ region ++ 0 :: rest) [] =
      ([some (.object [])], .undefined) :=
  undefined_after_negative_cursor specSkipToNextToken specParseObject specSkipToNextToken_le
    (paddedMessage (2 ^ 31 - 3)) region rest [] [some (.object [])] (-2147483648)
    parse_paddedMessage_two_pow_31 (by decide) hreg

end Lemmas

/-! ## The statements of the specification -/

section Claims

variable {V E : Type}

/-- C2: bytes after the last NUL are an incomplete message and change nothing:
for every buffer `b` and every NUL-free `t`, the call on `b ++ t` has the outcome
of the call on `b` (same array, same result); and on a NUL-free buffer the call
returns 0 and leaves the array alone whatever `SkipToNextToken` and `ParseObject`
are, so neither is consulted. -/
theorem incomplete_tail_ignored (skip : List UInt8 → Nat)
    (parse : List UInt8 → Except E (V × Nat)) (hskip : ∀ r, skip r ≤ r.length)
    (b t : List UInt8) (out : JsArray V) (ht : (0 : UInt8) ∉ t) :
    ParseNetworkMessages skip parse (b ++ t) out = ParseNetworkMessages skip parse b out ∧
    ∀ (skip2 : List UInt8 → Nat) (parse2 : List UInt8 → Except E (V × Nat)),
      ParseNetworkMessages skip2 parse2 t out = (out, .consumed 0) := by
  constructor
  · exact parse_append_nulFree skip parse hskip b t out ht
  · intro skip2 parse2
    unfold ParseNetworkMessages
    simp only
    rw [frameLoop_of_nulFree skip2 parse2 t t 0 _ ht]

/-- C2, witness: the buffer `{"a":1}\0{"b":2` gives one value and the consumed
length 8. -/
theorem incomplete_tail_ignored_witness :
    ParseNetworkMessages specSkipToNextToken specParseObject
      ([123, 34, 97, 34, 58, 49, 125, 0] ++ [123, 34, 98, 34, 58, 50]) [] =
      ([some (.object [([97], .number [49])])], .consumed 8) ∧
    ParseNetworkMessages specSkipToNextToken specParseObject
      [123, 34, 98, 34, 58, 50] [] = ([], .consumed 0) := by
  have h := incomplete_tail_ignored specSkipToNextToken specParseObject
    specSkipToNextToken_le [123, 34, 97, 34, 58, 49, 125, 0] [123, 34, 98, 34, 58, 50] []
    (by decide)
  refine ⟨?_, h.2 _ _⟩
  rw [h.1]
  rfl

/-- With the cursor at the start of the region (the call on `pre` returns
`pre.length`), the first error aborts the call and nothing is rolled back:
when the NUL-free region that follows `pre` is rejected with `o` (by the
brace test, by `ParseObject`, or by the trailing-content test), the call on
`pre ++ region ++ NUL ++ rest` ends with `o`, which is an error and not a
consumed length, the array is the one the call on `pre` leaves, and this holds
for every `rest`: no byte after the NUL of region k matters. -/
theorem first_error_aborts (skip : List UInt8 → Nat)
    (parse : List UInt8 → Except E (V × Nat)) (hskip : ∀ r, skip r ≤ r.length)
    (pre region : List UInt8) (out out1 : JsArray V) (o : Outcome E)
    (hpre : ParseNetworkMessages skip parse pre out = (out1, .consumed pre.length))
    (hreg : (0 : UInt8) ∉ region)
    (hrej : regionVerdict skip parse region = .error o) :
    (∀ n, o ≠ .consumed n) ∧
    ∀ rest : List UInt8,
      ParseNetworkMessages skip parse (pre ++ region ++ 0 :: rest) out = (out1, o) := by
  constructor
  · intro n hn
    rw [hn] at hrej
    exact regionVerdict_ne_consumed skip parse region n hrej
  · intro rest
    exact abort_at_region skip parse hskip pre region rest out out1 o hpre hreg hrej

/-- Example: in `{"a":1}\0x\0{"b":2}\0` the second region is rejected; the
value of the first region stays in the array. -/
theorem first_error_aborts_witness :
    ParseNetworkMessages specSkipToNextToken specParseObject
      ([123, 34, 97, 34, 58, 49, 125, 0] ++ [120] ++ 0 :: [123, 34, 98, 34, 58, 50, 125, 0]) [] =
      ([some (.object [([97], .number [49])])], .syntaxError "Invalid message type") :=
  (first_error_aborts specSkipToNextToken specParseObject specSkipToNextToken_le
    [123, 34, 97, 34, 58, 49, 125, 0] [120] [] [some (.object [([97], .number [49])])]
    (.syntaxError "Invalid message type") rfl (by decide) rfl).2
    [123, 34, 98, 34, 58, 50, 125, 0]

/-- With the cursor at the start of the region (the call on `pre` returns
`pre.length`): when the byte after the leading skip of the next NUL-free
region is not an opening brace, the call fails with the SyntaxError
"Invalid message type" and the array is the one the call on `pre` leaves, so
nothing is written for region k; this holds for every `ParseObject` that accepts
the earlier regions, so `ParseObject` is not consulted on region k. -/
theorem invalid_message_type (skip : List UInt8 → Nat)
    (parse : List UInt8 → Except E (V × Nat)) (hskip : ∀ r, skip r ≤ r.length)
    (pre region rest : List UInt8) (out out1 : JsArray V)
    (hpre : ParseNetworkMessages skip parse pre out = (out1, .consumed pre.length))
    (hreg : (0 : UInt8) ∉ region)
    (hbyte : (region ++ [0])[skip region]? ≠ some 123) :
    ParseNetworkMessages skip parse (pre ++ region ++ 0 :: rest) out =
      (out1, .syntaxError "Invalid message type") ∧
    ∀ parse2 : List UInt8 → Except E (V × Nat),
      ParseNetworkMessages skip parse2 pre out = (out1, .consumed pre.length) →
      ParseNetworkMessages skip parse2 (pre ++ region ++ 0 :: rest) out =
        (out1, .syntaxError "Invalid message type") :=
  ⟨abort_at_region skip parse hskip pre region rest out out1 _ hpre hreg
      (regionVerdict_of_not_brace skip parse region hbyte),
    fun parse2 hpre2 => abort_at_region skip parse2 hskip pre region rest out out1 _ hpre2 hreg
      (regionVerdict_of_not_brace skip parse2 region hbyte)⟩

/-- Example: the buffer `not-an-object\0` fails with "Invalid message type"
and writes nothing. -/
theorem invalid_message_type_witness :
    ParseNetworkMessages specSkipToNextToken specParseObject
      ([] ++ [110, 111, 116, 45, 97, 110, 45, 111, 98, 106, 101, 99, 116] ++ 0 :: []) [] =
      ([], .syntaxError "Invalid message type") :=
  (invalid_message_type specSkipToNextToken specParseObject specSkipToNextToken_le
    [] [110, 111, 116, 45, 97, 110, 45, 111, 98, 106, 101, 99, 116] [] [] [] rfl
    (by decide) (by decide)).1

/-- With the cursor at the start of the region (the call on `pre` returns
`pre.length`): when the next NUL-free region opens after the leading skip
with a brace and `ParseObject` parses it, reporting a size inside the region,
then the call on the buffer that ends with this region fails with the
SyntaxError "Invalid format" exactly when leading skip + reported size +
trailing skip differs from the region length; and in that case, whatever
follows the NUL, the call fails so and the array is the one the call on `pre`
leaves: nothing is written for region k. -/
theorem invalid_format_iff (skip : List UInt8 → Nat)
    (parse : List UInt8 → Except E (V × Nat)) (hskip : ∀ r, skip r ≤ r.length)
    (pre region : List UInt8) (out out1 : JsArray V) (v : V) (size : Nat)
    (hlen : region.length < sizeModulus)
    (hpre : ParseNetworkMessages skip parse pre out = (out1, .consumed pre.length))
    (hreg : (0 : UInt8) ∉ region)
    (hbrace : (region ++ [0])[skip region]? = some 123)
    (hparse : parse (region.drop (skip region)) = .ok (v, size))
    (hsize : size ≤ (region.drop (skip region)).length) :
    ((ParseNetworkMessages skip parse (pre ++ region ++ [0]) out).2 =
        .syntaxError "Invalid format" ↔
      skip region + size + skip (region.drop (skip region + size)) ≠ region.length) ∧
    (skip region + size + skip (region.drop (skip region + size)) ≠ region.length →
      ∀ rest : List UInt8,
        ParseNetworkMessages skip parse (pre ++ region ++ 0 :: rest) out =
          (out1, .syntaxError "Invalid format")) := by
  have hv := regionVerdict_of_parsed skip parse hskip region v size hlen hbrace hparse hsize
  have hbad : skip region + size + skip (region.drop (skip region + size)) ≠ region.length →
      ∀ rest : List UInt8,
        ParseNetworkMessages skip parse (pre ++ region ++ 0 :: rest) out =
          (out1, .syntaxError "Invalid format") := by
    intro hne rest
    rw [if_pos hne] at hv
    exact abort_at_region skip parse hskip pre region rest out out1 _ hpre hreg hv
  refine ⟨⟨?_, fun hne => by rw [hbad hne []]⟩, hbad⟩
  intro hfail hsum
  rw [if_neg (not_not.mpr hsum)] at hv
  rw [accept_last_region skip parse hskip pre region out out1 v hpre hreg hv] at hfail
  exact Outcome.noConfusion hfail

/-- Example: the buffer `{"a":1} garbage\0` fails with "Invalid format". -/
theorem invalid_format_iff_witness :
    ParseNetworkMessages specSkipToNextToken specParseObject
      ([] ++ [123, 34, 97, 34, 58, 49, 125, 32, 103, 97, 114, 98, 97, 103, 101] ++ 0 :: []) [] =
      ([], .syntaxError "Invalid format") :=
  (invalid_format_iff specSkipToNextToken specParseObject specSkipToNextToken_le
    [] [123, 34, 97, 34, 58, 49, 125, 32, 103, 97, 114, 98, 97, 103, 101] [] []
    (.object [([97], .number [49])]) 7 (by decide) rfl (by decide) (by decide) rfl
    (by decide)).2 (by decide) []

/-- C8, as stated, fails: an array that holds one entry from a prior call loses
it; the value of the message `{}` is stored at index 0, not appended at
index 1. -/
theorem sink_append_only_counterexample :
    ParseNetworkMessages specSkipToNextToken specParseObject [123, 125, 0]
        [some JsValue.null] = ([some (.object [])], .consumed 3) ∧
    ¬ ([some JsValue.null] <+:
      (ParseNetworkMessages specSkipToNextToken specParseObject [123, 125, 0]
        [some JsValue.null]).1) := by
  have h : ParseNetworkMessages specSkipToNextToken specParseObject [123, 125, 0]
      [some JsValue.null] = ([some (.object [])], .consumed 3) := rfl
  refine ⟨h, ?_⟩
  rw [h]
  rintro ⟨t, ht⟩
  simp at ht

/-- C8, amended: every call writes the array from index 0 (`out_index` starts at
0, not at the size of the array).  For a call that stores fewer than `2^32`
values, so that the `uint32_t` index does not wrap (every buffer of fewer than
`2^32` bytes is such): the array after the call is the list
of the values that the call stores, in the order in which it stores them,
followed by the entries of the given array beyond them; so the k-th value
stored is at index k, where it overwrites an entry of the given array, and
the entries of the given array at the indices from the number of stored
values on are unchanged.  The result of the call does not depend on the given
array. -/
theorem sink_written_from_zero (skip : List UInt8 → Nat)
    (parse : List UInt8 → Except E (V × Nat)) (str : List UInt8) (out : JsArray V)
    (hlen : (storedValues skip parse str str 0 0).length < 2 ^ 32) :
    ParseNetworkMessages skip parse str out =
      ((storedValues skip parse str str 0 0).map some ++
          out.drop (storedValues skip parse str str 0 0).length,
        (ParseNetworkMessages skip parse str []).2) ∧
    (∀ (k : Nat) (v : V), (storedValues skip parse str str 0 0)[k]? = some v →
      (ParseNetworkMessages skip parse str out).1[k]? = some (some v)) ∧
    (∀ j : Nat, (storedValues skip parse str str 0 0).length ≤ j →
      (ParseNetworkMessages skip parse str out).1[j]? = out[j]?) := by
  have h : ParseNetworkMessages skip parse str out =
      ((storedValues skip parse str str 0 0).map some ++
          out.drop (storedValues skip parse str str 0 0).length,
        (ParseNetworkMessages skip parse str []).2) := by
    rw [parse_out skip parse str out, parse_stored skip parse str hlen, List.length_map]
  refine ⟨h, ?_, ?_⟩
  · intro k v hk
    have hlt : k < ((storedValues skip parse str str 0 0).map some).length := by
      rw [List.length_map]
      exact (List.getElem?_eq_some_iff.mp hk).1
    rw [h]
    simp only
    rw [List.getElem?_append_left hlt, List.getElem?_map, hk]
    rfl
  · intro j hj
    rw [h]
    simp only
    rw [List.getElem?_append_right (by rw [List.length_map]; exact hj), List.length_map,
      List.getElem?_drop]
    congr 1
    omega

/-- C8, witness: the buffer `{}\0{"a":1}\0` with an array of three entries: the
two values are stored at the indices 0 and 1, the third entry stays. -/
theorem sink_written_from_zero_witness :
    ParseNetworkMessages specSkipToNextToken specParseObject
      [123, 125, 0, 123, 34, 97, 34, 58, 49, 125, 0]
      [some JsValue.null, some (.boolean true), some (.boolean false)] =
      ([some (.object []), some (.object [([97], .number [49])]), some (.boolean false)],
        .consumed 11) := by
  have h := (sink_written_from_zero specSkipToNextToken specParseObject
    [123, 125, 0, 123, 34, 97, 34, 58, 49, 125, 0]
    [some JsValue.null, some (.boolean true), some (.boolean false)] (by decide)).1
  rw [h]
  rfl

/-- C10, as stated, fails: a fault at offset 0 in region 0 and a fault at offset
4 in region 1 give the same error value, so no offset and no region index can
be read from it. -/
theorem error_position_counterexample :
    ¬ ∃ position : Outcome ParseFailure → Nat × Nat,
      position (ParseNetworkMessages specSkipToNextToken specParseObject
        [110, 111, 116, 45, 97, 110, 45, 111, 98, 106, 101, 99, 116, 0] []).2 = (0, 0) ∧
      position (ParseNetworkMessages specSkipToNextToken specParseObject
        [123, 125, 0, 32, 110, 111, 116, 0] []).2 = (4, 1) := by
  rintro ⟨position, h1, h2⟩
  have e1 : (ParseNetworkMessages specSkipToNextToken specParseObject
      [110, 111, 116, 45, 97, 110, 45, 111, 98, 106, 101, 99, 116, 0] []).2 =
      .syntaxError "Invalid message type" := rfl
  have e2 : (ParseNetworkMessages specSkipToNextToken specParseObject
      [123, 125, 0, 32, 110, 111, 116, 0] []).2 = .syntaxError "Invalid message type" := rfl
  rw [e1] at h1
  rw [e2, h1] at h2
  exact absurd h2 (by decide)

/-- C10, amended: an error raised by the framer itself carries the error kind
only: it is a SyntaxError whose message is one of the two fixed texts
"Invalid message type" and "Invalid format"; it has no byte offset and no
region index. -/
theorem framer_error_kind_only (skip : List UInt8 → Nat)
    (parse : List UInt8 → Except E (V × Nat)) (str : List UInt8) (out : JsArray V)
    (msg : String)
    (h : (ParseNetworkMessages skip parse str out).2 = .syntaxError msg) :
    msg = "Invalid message type" ∨ msg = "Invalid format" :=
  frameLoop_syntaxError skip parse str str 0 _ msg h

/-- C10, witness: `not-an-object\0` fails with the kind "Invalid message type". -/
theorem framer_error_kind_only_witness :
    (ParseNetworkMessages specSkipToNextToken specParseObject
      [110, 111, 116, 45, 97, 110, 45, 111, 98, 106, 101, 99, 116, 0] []).2 =
      .syntaxError "Invalid message type" ∧
    ("Invalid message type" = "Invalid message type" ∨
      "Invalid message type" = "Invalid format") :=
  ⟨rfl, framer_error_kind_only specSkipToNextToken specParseObject
    [110, 111, 116, 45, 97, 110, 45, 111, 98, 106, 101, 99, 116, 0] []
    "Invalid message type" rfl⟩

/-- C9, failing input: the buffer `{}`, `2^31 - 3` spaces, NUL has `2^31` bytes, a
length that `size_t` represents; the call succeeds and stores the value, and
the integer it returns is `-2147483648`: negative, not the buffer length. -/
theorem consumed_length_negative :
    (paddedMessage (2 ^ 31 - 3)).length = 2 ^ 31 ∧
    (paddedMessage (2 ^ 31 - 3)).length < sizeModulus ∧
    ParseNetworkMessages specSkipToNextToken specParseObject (paddedMessage (2 ^ 31 - 3)) [] =
      ([some (.object [])], .consumed (-2147483648)) ∧
    ¬ (0 ≤ (-2147483648 : Int)) := by
  refine ⟨?_, ?_, parse_paddedMessage_two_pow_31, by decide⟩
  · rw [length_paddedMessage]; decide
  · rw [length_paddedMessage]; decide

/-- C1, failing input: one region `ws1 ++ obj ++ ws2` with `ws1` empty, `obj` the
object `{}` and `ws2` made of `2^31 - 3` spaces meets every premise of the claim
(it is NUL-free, the skipper skips exactly `ws1` and exactly `ws2`, and
`ParseObject` succeeds on the object reporting its size), yet the call on
`region ++ [0]` does not return the length of the buffer. -/
theorem well_formed_message_not_consumed :
    (0 : UInt8) ∉ [] ++ [123, 125] ++ List.replicate (2 ^ 31 - 3) 32 ∧
    specSkipToNextToken ([] ++ [123, 125] ++ List.replicate (2 ^ 31 - 3) 32) = ([] : List UInt8).length ∧
    specParseObject ([123, 125] ++ List.replicate (2 ^ 31 - 3) 32) =
      .ok (.object [], [123, 125].length) ∧
    specSkipToNextToken (List.replicate (2 ^ 31 - 3) 32) = (List.replicate (2 ^ 31 - 3) (32 : UInt8)).length ∧
    (ParseNetworkMessages specSkipToNextToken specParseObject
      ([] ++ [123, 125] ++ List.replicate (2 ^ 31 - 3) 32 ++ [0]) []).2 ≠
      .consumed (([] ++ [123, 125] ++ List.replicate (2 ^ 31 - 3) 32 ++ [0] : List UInt8).length) := by
  have hbuf : ([] ++ [123, 125] ++ List.replicate (2 ^ 31 - 3) 32 ++ [0] : List UInt8) =
      paddedMessage (2 ^ 31 - 3) := rfl
  refine ⟨not_mem_emptyObject_spaces _, rfl, specParseObject_emptyObject _, ?_, ?_⟩
  · rw [specSkipToNextToken_replicate, List.length_replicate]
  · rw [hbuf, parse_paddedMessage_two_pow_31, length_paddedMessage]
    simp only [ne_eq, Outcome.consumed.injEq]
    decide

/-- C3, failing input: `A` is the buffer `{}`, `2^31 - 3` spaces, NUL and `B` the
incomplete message `{`; `A` ends with NUL and the call on `A ++ B` succeeds, but
the call on `A` does not return the length of `A`. -/
theorem split_at_boundary_not_consumed :
    (paddedMessage (2 ^ 31 - 3))[2 ^ 31 - 3 + 2]? = some 0 ∧
    (paddedMessage (2 ^ 31 - 3)).length = 2 ^ 31 - 3 + 2 + 1 ∧
    ParseNetworkMessages specSkipToNextToken specParseObject
      (paddedMessage (2 ^ 31 - 3) ++ [123]) [] =
      ([some (.object [])], .consumed (-2147483648)) ∧
    (ParseNetworkMessages specSkipToNextToken specParseObject
      (paddedMessage (2 ^ 31 - 3)) []).2 ≠ .consumed ((paddedMessage (2 ^ 31 - 3)).length) := by
  refine ⟨getElem?_paddedMessage_last _, length_paddedMessage _, ?_, ?_⟩
  · rw [parse_append_nulFree specSkipToNextToken specParseObject specSkipToNextToken_le
      (paddedMessage (2 ^ 31 - 3)) [123] [] (by decide)]
    exact parse_paddedMessage_two_pow_31
  · rw [parse_paddedMessage_two_pow_31, length_paddedMessage]
    simp only [ne_eq, Outcome.consumed.injEq]
    decide

/-- C7, failing input: in the buffer `{}`, `2^31 - 3` spaces, NUL the last NUL is
at index `2^31 - 1`, the call succeeds, and the consumed length it returns is
not that index plus one. -/
theorem consumed_length_not_last_boundary :
    (paddedMessage (2 ^ 31 - 3))[2 ^ 31 - 1]? = some 0 ∧
    (paddedMessage (2 ^ 31 - 3)).length = 2 ^ 31 - 1 + 1 ∧
    ∃ c : Int,
      (ParseNetworkMessages specSkipToNextToken specParseObject
        (paddedMessage (2 ^ 31 - 3)) []).2 = .consumed c ∧ c ≠ 2 ^ 31 - 1 + 1 := by
  refine ⟨getElem?_paddedMessage_last _, length_paddedMessage _, -2147483648, ?_, by decide⟩
  rw [parse_paddedMessage_two_pow_31]

/-- With the cursor at the start of the region (the call on `pre` returns
`pre.length`), an empty or skip-only region is rejected: when `SkipToNextToken`
never skips more than the length of its span and the next region is empty or made
only of bytes that `SkipToNextToken` skips, the byte tested against the opening
brace is the NUL that ends the region, and the call fails with the SyntaxError
"Invalid message type", the array being the one the call on `pre` leaves. -/
theorem empty_region_rejected (skip : List UInt8 → Nat)
    (parse : List UInt8 → Except E (V × Nat)) (hskip : ∀ r, skip r ≤ r.length)
    (pre region rest : List UInt8) (out out1 : JsArray V)
    (hpre : ParseNetworkMessages skip parse pre out = (out1, .consumed pre.length))
    (hreg : (0 : UInt8) ∉ region)
    (hall : region = [] ∨ skip region = region.length) :
    (pre ++ region ++ 0 :: rest)[pre.length + skip region]? = some 0 ∧
    ParseNetworkMessages skip parse (pre ++ region ++ 0 :: rest) out =
      (out1, .syntaxError "Invalid message type") := by
  have hs : skip region = region.length := by
    rcases hall with h | h
    · have := hskip region
      rw [h] at this ⊢
      simpa using this
    · exact h
  have hb : (region ++ [0])[skip region]? = some 0 := by
    rw [hs, List.getElem?_append_right (le_refl _), Nat.sub_self]
    rfl
  refine ⟨?_, ?_⟩
  · rw [getElem?_region pre region rest (skip region) (hskip region), hb]
  · exact abort_at_region skip parse hskip pre region rest out out1 _ hpre hreg
      (regionVerdict_of_not_brace skip parse region (by rw [hb]; decide))

/-- Example: the buffer `\0` starts with NUL; in `{}\0\0` the second region
is empty, in `{}\0  \0` it holds two spaces.  All three calls fail with
"Invalid message type"; the last two after the first value is stored. -/
theorem empty_region_rejected_witness :
    ParseNetworkMessages specSkipToNextToken specParseObject
      ([] ++ [] ++ 0 :: []) [] = ([], .syntaxError "Invalid message type") ∧
    ParseNetworkMessages specSkipToNextToken specParseObject
      ([123, 125, 0] ++ [] ++ 0 :: []) [] =
      ([some (.object [])], .syntaxError "Invalid message type") ∧
    ParseNetworkMessages specSkipToNextToken specParseObject
      ([123, 125, 0] ++ [32, 32] ++ 0 :: []) [] =
      ([some (.object [])], .syntaxError "Invalid message type") :=
  ⟨(empty_region_rejected specSkipToNextToken specParseObject specSkipToNextToken_le
      [] [] [] [] [] rfl (by decide) (Or.inl rfl)).2,
    (empty_region_rejected specSkipToNextToken specParseObject specSkipToNextToken_le
      [123, 125, 0] [] [] [] [some (.object [])] rfl (by decide) (Or.inl rfl)).2,
    (empty_region_rejected specSkipToNextToken specParseObject specSkipToNextToken_le
      [123, 125, 0] [32, 32] [] [] [some (.object [])] rfl (by decide) (Or.inr rfl)).2⟩

/-- C14: bounds safety: when `SkipToNextToken` returns at most the length of its
span and `ParseObject`, on success, reports a size of at most the length of its
span, then for every buffer whose length fits `int32_t` every index at which
the loop reads `str[i]` and the index of the byte tested against the brace lie
inside the buffer, every span passed to `SkipToNextToken` and `ParseObject`
starts inside the buffer and not after its end, the position of the current
NUL, and the call never reaches the outcome `undefined` of an out-of-range
access. -/
theorem framer_in_bounds (skip : List UInt8 → Nat)
    (parse : List UInt8 → Except E (V × Nat)) (hskip : ∀ r, skip r ≤ r.length)
    (hparse : ∀ r v n, parse r = .ok (v, n) → n ≤ r.length)
    (str : List UInt8) (out : JsArray V) (hlen : str.length ≤ int32Max) :
    loopInBounds skip parse str str 0 { out := out, out_index := 0, parsed_length := 0 } = true ∧
    (ParseNetworkMessages skip parse str out).2 ≠ .undefined :=
  frameLoop_in_bounds skip parse hskip hparse str hlen str [] 0 _ rfl rfl (le_refl _) (le_refl _)

/-- C14, witness: the buffer `  {"a":1}  \0{`, with the skipper and the parser of
sections 4.2 and 4.3. -/
theorem framer_in_bounds_witness :
    loopInBounds specSkipToNextToken specParseObject
      [32, 32, 123, 34, 97, 34, 58, 49, 125, 32, 32, 0, 123]
      [32, 32, 123, 34, 97, 34, 58, 49, 125, 32, 32, 0, 123] 0
      { out := [], out_index := 0, parsed_length := 0 } = true ∧
    (ParseNetworkMessages specSkipToNextToken specParseObject
      [32, 32, 123, 34, 97, 34, 58, 49, 125, 32, 32, 0, 123] []).2 ≠ .undefined :=
  framer_in_bounds specSkipToNextToken specParseObject specSkipToNextToken_le
    specParseObject_size_le [32, 32, 123, 34, 97, 34, 58, 49, 125, 32, 32, 0, 123] []
    (by decide)

/-- C11, failing input: on the buffer `{}`, `2^31 - 3` spaces, NUL (`2^31` bytes)
the reference definition gives the one value and the consumed length
`2147483648`, the sum of `piece length + 1`; the loop stores the same value but
returns `-2147483648`: the two are not equal. -/
theorem loop_differs_from_reference :
    referenceParse specSkipToNextToken specParseObject (paddedMessage (2 ^ 31 - 3)) =
      ([.object []], .consumed 2147483648) ∧
    ParseNetworkMessages specSkipToNextToken specParseObject (paddedMessage (2 ^ 31 - 3)) [] =
      ([some (.object [])], .consumed (-2147483648)) ∧
    (ParseNetworkMessages specSkipToNextToken specParseObject
      (paddedMessage (2 ^ 31 - 3)) []).2 ≠
      (referenceParse specSkipToNextToken specParseObject (paddedMessage (2 ^ 31 - 3))).2 := by
  refine ⟨reference_paddedMessage_two_pow_31, parse_paddedMessage_two_pow_31, ?_⟩
  rw [reference_paddedMessage_two_pow_31, parse_paddedMessage_two_pow_31]
  simp only [ne_eq, Outcome.consumed.injEq]
  decide

/-- C12, failing input: `b` is the buffer `{}`, `2^31 - 3` spaces, NUL and the cut
is `p = 2^31`, the end of `b`.  The call on `b` succeeds, but the call on
`b[0, p)` returns `-2147483648`: no offset `c1` into `b` is returned from which
the second call could start, so no `c1` and `c2` are as the claim says. -/
theorem stream_cut_not_resumable :
    (paddedMessage (2 ^ 31 - 3)).length = 2 ^ 31 ∧
    (ParseNetworkMessages specSkipToNextToken specParseObject
      (paddedMessage (2 ^ 31 - 3)) []).2 = .consumed (-2147483648) ∧
    ¬ ∃ (c1 : Nat) (c2 : Int),
      (ParseNetworkMessages specSkipToNextToken specParseObject
        ((paddedMessage (2 ^ 31 - 3)).take (2 ^ 31)) []).2 = .consumed (c1 : Int) ∧
      c1 ≤ 2 ^ 31 ∧
      (ParseNetworkMessages specSkipToNextToken specParseObject
        ((paddedMessage (2 ^ 31 - 3)).drop c1) []).2 = .consumed c2 ∧
      (ParseNetworkMessages specSkipToNextToken specParseObject
        (paddedMessage (2 ^ 31 - 3)) []).1 =
        (ParseNetworkMessages specSkipToNextToken specParseObject
          ((paddedMessage (2 ^ 31 - 3)).take (2 ^ 31)) []).1 ++
        (ParseNetworkMessages specSkipToNextToken specParseObject
          ((paddedMessage (2 ^ 31 - 3)).drop c1) []).1 ∧
      (-2147483648 : Int) = (c1 : Int) + c2 := by
  refine ⟨by rw [length_paddedMessage]; decide, by rw [parse_paddedMessage_two_pow_31], ?_⟩
  rintro ⟨c1, c2, h1, _⟩
  rw [take_paddedMessage_two_pow_31, parse_paddedMessage_two_pow_31] at h1
  simp only [Outcome.consumed.injEq] at h1
  omega

/-- C4, failing input: the buffer `{}`, `2^31 - 3` spaces, NUL, `{`, NUL, `{}`, NUL.
Region 0 (`2^31 - 1` bytes) is accepted and its value stored; region 1, `{`, is
rejected by `ParseObject`.  The call does not end with the error of region 1:
after region 0 the cursor is `-2147483648`, and at the NUL of region 1 the
behaviour is undefined. -/
theorem accepted_prefix_then_parse_error :
    regionVerdict specSkipToNextToken specParseObject
      (123 :: 125 :: List.replicate (2 ^ 31 - 3) 32) = .ok (.object []) ∧
    regionVerdict specSkipToNextToken specParseObject [123] =
      .error (.parseError (.unexpectedEnd, 1)) ∧
    ParseNetworkMessages specSkipToNextToken specParseObject
      (paddedMessage (2 ^ 31 - 3) ++ [123] ++ 0 :: [123, 125, 0]) [] =
      ([some (.object [])], .undefined) ∧
    (ParseNetworkMessages specSkipToNextToken specParseObject
      (paddedMessage (2 ^ 31 - 3) ++ [123] ++ 0 :: [123, 125, 0]) []).2 ≠
      .parseError (.unexpectedEnd, 1) := by
  have h := parse_after_paddedMessage [123] [123, 125, 0] (by decide)
  refine ⟨regionVerdict_emptyObject_spaces _ (by decide), rfl, h, ?_⟩
  rw [h]
  exact Outcome.noConfusion

/-- C5, failing input: the buffer `{}`, `2^31 - 3` spaces, NUL, `x`, NUL.  Region 0
is accepted and its value stored; in region 1 the byte after the leading skip
is `x`, not an opening brace.  The call does not fail with
"Invalid message type": the cursor is `-2147483648` and the behaviour at the
NUL of region 1 is undefined. -/
theorem accepted_prefix_then_not_object :
    regionVerdict specSkipToNextToken specParseObject
      (123 :: 125 :: List.replicate (2 ^ 31 - 3) 32) = .ok (.object []) ∧
    (([120] : List UInt8) ++ [0])[specSkipToNextToken [120]]? = some 120 ∧
    ParseNetworkMessages specSkipToNextToken specParseObject
      (paddedMessage (2 ^ 31 - 3) ++ [120] ++ 0 :: []) [] =
      ([some (.object [])], .undefined) ∧
    (ParseNetworkMessages specSkipToNextToken specParseObject
      (paddedMessage (2 ^ 31 - 3) ++ [120] ++ 0 :: []) []).2 ≠
      .syntaxError "Invalid message type" := by
  have h := parse_after_paddedMessage [120] [] (by decide)
  refine ⟨regionVerdict_emptyObject_spaces _ (by decide), rfl, h, ?_⟩
  rw [h]
  exact Outcome.noConfusion

/-- C6, failing input: the buffer `{}`, `2^31 - 3` spaces, NUL, `{}x`, NUL.  Region 0
is accepted and its value stored; region 1 opens with a brace, `ParseObject`
succeeds on it reporting the size 2, and leading skip + size + trailing skip
is 2, not the region length 3.  The call does not fail with "Invalid format":
the cursor is `-2147483648` and the behaviour at the NUL of region 1 is
undefined. -/
theorem accepted_prefix_then_trailing_content :
    regionVerdict specSkipToNextToken specParseObject
      (123 :: 125 :: List.replicate (2 ^ 31 - 3) 32) = .ok (.object []) ∧
    (([123, 125, 120] : List UInt8) ++ [0])[specSkipToNextToken [123, 125, 120]]? =
      some 123 ∧
    specParseObject ([123, 125, 120].drop (specSkipToNextToken [123, 125, 120])) =
      .ok (.object [], 2) ∧
    specSkipToNextToken [123, 125, 120] + 2 +
        specSkipToNextToken ([123, 125, 120].drop (specSkipToNextToken [123, 125, 120] + 2)) ≠
      ([123, 125, 120] : List UInt8).length ∧
    ParseNetworkMessages specSkipToNextToken specParseObject
      (paddedMessage (2 ^ 31 - 3) ++ [123, 125, 120] ++ 0 :: []) [] =
      ([some (.object [])], .undefined) ∧
    (ParseNetworkMessages specSkipToNextToken specParseObject
      (paddedMessage (2 ^ 31 - 3) ++ [123, 125, 120] ++ 0 :: []) []).2 ≠
      .syntaxError "Invalid format" := by
  have h := parse_after_paddedMessage [123, 125, 120] [] (by decide)
  refine ⟨regionVerdict_emptyObject_spaces _ (by decide), rfl, rfl, by decide, h, ?_⟩
  rw [h]
  exact Outcome.noConfusion

/-- C13, failing input: the buffer `{}`, `2^31 - 3` spaces, NUL, NUL, with the
skipper of section 4.2, which never skips more than its span.  Region 0 is
accepted and its value stored; region 1, between the two adjacent NULs, is
empty.  The call does not fail with "Invalid message type": the cursor is
`-2147483648` and the behaviour at the second NUL is undefined. -/
theorem accepted_prefix_then_empty_region :
    regionVerdict specSkipToNextToken specParseObject
      (123 :: 125 :: List.replicate (2 ^ 31 - 3) 32) = .ok (.object []) ∧
    (paddedMessage (2 ^ 31 - 3))[2 ^ 31 - 1]? = some 0 ∧
    (paddedMessage (2 ^ 31 - 3)).length = 2 ^ 31 ∧
    ParseNetworkMessages specSkipToNextToken specParseObject
      (paddedMessage (2 ^ 31 - 3) ++ [] ++ 0 :: []) [] =
      ([some (.object [])], .undefined) ∧
    (ParseNetworkMessages specSkipToNextToken specParseObject
      (paddedMessage (2 ^ 31 - 3) ++ [] ++ 0 :: []) []).2 ≠
      .syntaxError "Invalid message type" := by
  have h := parse_after_paddedMessage [] [] (by decide)
  refine ⟨regionVerdict_emptyObject_spaces _ (by decide), getElem?_paddedMessage_last _,
    by rw [length_paddedMessage]; decide, h, ?_⟩
  rw [h]
  exact Outcome.noConfusion

end Claims

end MessageParser
